import Mathlib

/-!
Shallow embedding of the CoplanarSketch FreeCAD macro
(src/CoplanarSketch2.06.py, the latest of the three near-duplicate
revisions).  Vectors are modelled over the exact reals; FreeCAD's
`Vector`, `Rotation` (a quaternion) and `Placement` are reproduced as
plain algebraic data, and the geometric pipeline
(`calculate_robust_plane_normal_and_placement`,
`create_robust_placement`, the coplanarity filter of
`select_coplanar_edges`, and the per-edge emission loop of
`create_sketch_from_selection`) is translated function by function.
Host-document side effects (transactions, object creation, the
constraint solver's accept/reject decisions and the user dialog) are
modelled as explicit inputs and an explicit result record.
-/

namespace CoplanarSketch

noncomputable section

/-- 3-D vector with real coordinates, modelling `FreeCAD.Vector`. -/
@[ext]
structure Vector3 where
  x : ℝ
  y : ℝ
  z : ℝ

instance : Zero Vector3 := ⟨⟨0, 0, 0⟩⟩

instance : Add Vector3 := ⟨fun a b => ⟨a.x + b.x, a.y + b.y, a.z + b.z⟩⟩

instance : Sub Vector3 := ⟨fun a b => ⟨a.x - b.x, a.y - b.y, a.z - b.z⟩⟩

/-- Scalar multiple, modelling `FreeCAD.Vector.multiply` (written as a pure
function; the FreeCAD method mutates in place and returns itself, and in the
macro every such call reassigns the result to the same variable). -/
instance : SMul ℝ Vector3 := ⟨fun c v => ⟨c * v.x, c * v.y, c * v.z⟩⟩

/-- Dot product of `FreeCAD.Vector.dot`. -/
def Vector3.dot (a b : Vector3) : ℝ := a.x * b.x + a.y * b.y + a.z * b.z

/-- Cross product of `FreeCAD.Vector.cross`. -/
def Vector3.cross (a b : Vector3) : Vector3 :=
  ⟨a.y * b.z - a.z * b.y, a.z * b.x - a.x * b.z, a.x * b.y - a.y * b.x⟩

/-- Squared Euclidean length. -/
def Vector3.normSq (v : Vector3) : ℝ := v.x ^ 2 + v.y ^ 2 + v.z ^ 2

/-- `FreeCAD.Vector.Length`, the Euclidean length. -/
def Vector3.Length (v : Vector3) : ℝ := Real.sqrt v.normSq

/-- `FreeCAD.Vector.normalize` (always called on a vector of positive length
in the macro; on the zero vector this model yields the zero vector). -/
def Vector3.normalize (v : Vector3) : Vector3 := (1 / v.Length) • v

/-- `is_close(p1, p2, tol)` from the macro: `(p1 - p2).Length < tol`.
The macro's default tolerance is `1e-4`; call sites here always pass the
tolerance explicitly. -/
def is_close (p1 p2 : Vector3) (tol : ℝ) : Prop := (p1 - p2).Length < tol

instance (p1 p2 : Vector3) (tol : ℝ) : Decidable (is_close p1 p2 tol) := by
  unfold is_close; infer_instance

/-- An edge, reduced to its two endpoint points
(`edge.Vertexes[0].Point`, `edge.Vertexes[-1].Point`). -/
abbrev Edge := Vector3 × Vector3

/-! ### Plane estimator (`calculate_robust_plane_normal_and_placement`) -/

/-- Sum of a list of vectors: `sum(vertices, FreeCAD.Vector())`. -/
def vsum (l : List Vector3) : Vector3 := l.foldl (· + ·) 0

/-- The python `range(a, n)` as a list. -/
def rangeFrom (a n : ℕ) : List ℕ := (List.range n).filter (fun m => a ≤ m)

/-- All index triples `(i, j, k)` with `i < j < k < n`, in the iteration
order of the macro's three nested `for` loops. -/
def allTriples (n : ℕ) : List (ℕ × ℕ × ℕ) :=
  (List.range n).flatMap (fun i =>
    (rangeFrom (i + 1) n).flatMap (fun j =>
      (rangeFrom (j + 1) n).map (fun k => (i, j, k))))

/-- The candidate normal of one triple:
`(vectors[j] - vectors[i]).cross(vectors[k] - vectors[i])`. -/
def tripleCross (vs : List Vector3) (t : ℕ × ℕ × ℕ) : Vector3 :=
  ((vs.getD t.2.1 0) - (vs.getD t.1 0)).cross ((vs.getD t.2.2 0) - (vs.getD t.1 0))

/-- One iteration of the innermost loop body: keep the candidate with the
strictly largest magnitude seen so far (first maximum wins ties). -/
def bestStep (vs : List Vector3) (acc : ℝ × Option Vector3) (t : ℕ × ℕ × ℕ) :
    ℝ × Option Vector3 :=
  let n := tripleCross vs t
  if n.Length > acc.1 then (n.Length, some n.normalize) else acc

/-- The triple loop of `calculate_robust_plane_normal_and_placement`,
starting from `best_magnitude = 0`, `best_normal = None`. -/
def bestNormalSearch (vs : List Vector3) : ℝ × Option Vector3 :=
  (allTriples vs.length).foldl (bestStep vs) (0, none)

/-- `calculate_robust_plane_normal_and_placement(vertices)` with the dock
widget's `self.edge_mass_center` passed explicitly.  (The python
`best_normal or FreeCAD.Vector(0, 0, 1)` is a None-coalescing `or`: when set,
`best_normal` is a normalized, hence nonzero, vector, so it is never falsy.) -/
def calculate_robust_plane_normal_and_placement
    (vertices : List Vector3) (edge_mass_center : Vector3) : Vector3 × Vector3 :=
  if vertices.length < 3 then (⟨0, 0, 1⟩, ⟨0, 0, 0⟩)
  else
    let center : Vector3 := (1 / (vertices.length : ℝ)) • vsum vertices
    let vectors := vertices.map (fun v => v - center)
    let best := bestNormalSearch vectors
    let best_normal := best.2.getD ⟨0, 0, 1⟩
    let delta := center - edge_mass_center
    let best_normal :=
      if delta.Length > 1e-6 ∧ delta.normalize.dot best_normal < 0 then
        (-1 : ℝ) • best_normal
      else best_normal
    (best_normal, center)

/-! ### Placement builder (`create_robust_placement`) -/

/-- A quaternion, modelling `FreeCAD.Rotation`. -/
structure Quat where
  w : ℝ
  x : ℝ
  y : ℝ
  z : ℝ

/-- The vector (imaginary) part of a quaternion. -/
def Quat.vec (q : Quat) : Vector3 := ⟨q.x, q.y, q.z⟩

/-- Squared quaternion norm. -/
def Quat.normSq (q : Quat) : ℝ := q.w ^ 2 + q.x ^ 2 + q.y ^ 2 + q.z ^ 2

/-- Quaternion conjugate: the inverse rotation. -/
def Quat.conj (q : Quat) : Quat := ⟨q.w, -q.x, -q.y, -q.z⟩

/-- The rotation a (not necessarily unit) quaternion represents, applied to a
vector: the sandwich `q v q*` divided by `|q|^2`, expanded into the standard
vector form.  For a unit quaternion this is the usual rotation action, and the
division makes the action invariant under positive rescaling of `q`. -/
def Quat.apply (q : Quat) (v : Vector3) : Vector3 :=
  (1 / q.normSq) •
    ((q.w ^ 2 - q.vec.normSq) • v + (2 * q.vec.dot v) • q.vec +
      (2 * q.w) • (q.vec.cross v))

/-- `FreeCAD.Rotation()`, the identity rotation. -/
def qIdentity : Quat := ⟨1, 0, 0, 0⟩

/-- `FreeCAD.Rotation(FreeCAD.Vector(1, 0, 0), 180)`: a half turn about the
world X axis, i.e. the quaternion `(cos 90°, sin 90° · (1,0,0))`. -/
def qRotX180 : Quat := ⟨0, 1, 0, 0⟩

/-- `FreeCAD.Rotation(a, b)`: the shortest-arc rotation taking direction `a`
to direction `b`, as the (unnormalized) quaternion
`(1 + a·b, a × b)` of the normalized inputs; `Quat.apply` divides by the
squared norm, so this represents the same rotation as FreeCAD's normalized
quaternion. -/
def qShortestArc (a b : Vector3) : Quat :=
  let a' := a.normalize
  let b' := b.normalize
  ⟨1 + a'.dot b', (a'.cross b').x, (a'.cross b').y, (a'.cross b').z⟩

/-- A placement: origin plus rotation, modelling `FreeCAD.Placement`. -/
structure Placement where
  base : Vector3
  rot : Quat

/-- `placement.inverse().multVec(v)`: the inverse rigid transform applied to
a global point, yielding local coordinates. -/
def Placement.invVec (p : Placement) (v : Vector3) : Vector3 :=
  p.rot.conj.apply (v - p.base)

/-- The guard line of `create_robust_placement`:
`normal.normalize() if normal.Length > 1e-6 else FreeCAD.Vector(0, 0, 1)`. -/
def safeNormal (normal : Vector3) : Vector3 :=
  if normal.Length > 1e-6 then normal.normalize else ⟨0, 0, 1⟩

/-- `create_robust_placement(normal, center)`. -/
def create_robust_placement (normal center : Vector3) : Placement :=
  let n := safeNormal normal
  let z_axis : Vector3 := ⟨0, 0, 1⟩
  ⟨center,
    if |n.dot z_axis| > 0.999 then
      (if n.z > 0 then qIdentity else qRotX180)
    else qShortestArc z_axis n⟩

/-! ### Coplanarity classifier (`select_coplanar_edges`) -/

/-- Membership of one point in a plane:
`abs((pt - plane_point).dot(plane_normal)) < tol` (the macro uses the fixed
tolerance `0.001`; the tolerance is kept as a parameter per the contract). -/
def coplanarPt (plane_point plane_normal pt : Vector3) (tol : ℝ) : Prop :=
  |((pt - plane_point).dot plane_normal)| < tol

instance (pp pn pt : Vector3) (tol : ℝ) : Decidable (coplanarPt pp pn pt tol) := by
  unfold coplanarPt; infer_instance

/-- `is_coplanar(edge)` from `select_coplanar_edges`: both endpoints must
satisfy the plane-membership test. -/
def is_coplanar (plane_point plane_normal : Vector3) (tol : ℝ) (e : Edge) : Prop :=
  coplanarPt plane_point plane_normal e.1 tol ∧ coplanarPt plane_point plane_normal e.2 tol

instance (pp pn : Vector3) (tol : ℝ) (e : Edge) : Decidable (is_coplanar pp pn tol e) := by
  unfold is_coplanar; infer_instance

/-- The list comprehension
`[edge for edge in obj.Shape.Edges if is_coplanar(edge)]`, as an
order-preserving filter over an explicit edge list. -/
def classify (plane_point plane_normal : Vector3) (tol : ℝ) : List Edge → List Edge
  | [] => []
  | e :: rest =>
      if is_coplanar plane_point plane_normal tol e then
        e :: classify plane_point plane_normal tol rest
      else classify plane_point plane_normal tol rest

/-- The plane derivation of `select_coplanar_edges` for the two-edge branch:
`v1, v2` are the first edge's endpoints, `v3` is the first endpoint of the
second edge not `is_close` (tolerance `1e-4`) to `v1` or `v2`, the normal is
the raw cross product `(v2 - v1).cross(v3 - v1)`, rejected when its length is
below `1e-6`; the plane point is `v1`.  Returns `none` on the two error
paths. -/
def planeFromEdgePair (e1 e2 : Edge) : Option (Vector3 × Vector3) :=
  let v1 := e1.1
  let v2 := e1.2
  let v3? : Option Vector3 :=
    if ¬ is_close e2.1 v1 1e-4 ∧ ¬ is_close e2.1 v2 1e-4 then some e2.1
    else if ¬ is_close e2.2 v1 1e-4 ∧ ¬ is_close e2.2 v2 1e-4 then some e2.2
    else none
  match v3? with
  | none => none
  | some v3 =>
      let n := (v2 - v1).cross (v3 - v1)
      if n.Length < 1e-6 then none else some (n, v1)

/-! ### Sketch synthesis (`create_sketch_from_selection`) -/

/-- One step of the `unique_vertices` deduplication before plane estimation:
`if all(not is_close(p, q) for q in unique_vertices): append p`
(default tolerance `1e-4`). -/
def dedupStep (unique : List Vector3) (p : Vector3) : List Vector3 :=
  if ∀ q ∈ unique, ¬ is_close p q 1e-4 then unique ++ [p] else unique

/-- The `unique_vertices` deduplication loop. -/
def dedup (points : List Vector3) : List Vector3 := points.foldl dedupStep []

/-- Register one global endpoint in the vertex map (an insertion-ordered
association list, as a python dict): append the reference to the first
existing key within the merge tolerance, else add a new key holding the
point itself. -/
def registerPoint (tol : ℝ) (pt : Vector3) (r : ℕ × ℕ) :
    List (Vector3 × List (ℕ × ℕ)) → List (Vector3 × List (ℕ × ℕ))
  | [] => [(pt, [r])]
  | (k, refs) :: rest =>
      if is_close pt k tol then (k, refs ++ [r]) :: rest
      else (k, refs) :: registerPoint tol pt r rest

/-- The mutable state of the per-edge emission loop: the next geometry index
(`addGeometry` return values are sequential), the next constraint index, the
emitted local-frame segments, the block-constraint indices, and the vertex
map. -/
structure LoopState where
  geoCount : ℕ
  conCount : ℕ
  segments : List (Vector3 × Vector3)
  block_constraints : List ℕ
  vertex_map : List (Vector3 × List (ℕ × ℕ))

/-- One iteration of the per-edge loop of `create_sketch_from_selection`
(`tolerance = 0.001`): skip degenerate edges, else transform both endpoints
into the sketch frame via `inv`, emit the construction segment, register both
global endpoints, and record the block constraint. -/
def processEdge (inv : Vector3 → Vector3) (st : LoopState) (e : Edge) : LoopState :=
  if is_close e.1 e.2 0.001 then st
  else
    let start_local := inv e.1
    let end_local := inv e.2
    let geo_index := st.geoCount
    let vm1 := registerPoint 0.001 e.1 (geo_index, 1) st.vertex_map
    let vm2 := registerPoint 0.001 e.2 (geo_index, 2) vm1
    { geoCount := geo_index + 1
    , conCount := st.conCount + 1
    , segments := st.segments ++ [(start_local, end_local)]
    , block_constraints := st.block_constraints ++ [st.conCount]
    , vertex_map := vm2 }

/-- The star of coincidence requests for one vertex group: `refs[0]` paired
with each element of `refs[1:]`. -/
def starPairs : List (ℕ × ℕ) → List ((ℕ × ℕ) × (ℕ × ℕ))
  | [] => []
  | first :: rest => rest.map (fun r => (first, r))

/-- The coincidence-synthesis loop: for every group with more than one
member, the star of pairwise requests, in vertex-map order. -/
def coincidentAttempts (vertex_map : List (Vector3 × List (ℕ × ℕ))) :
    List ((ℕ × ℕ) × (ℕ × ℕ)) :=
  vertex_map.flatMap (fun g => if 1 < g.2.length then starPairs g.2 else [])

/-- The observable outcome of one `create_sketch_from_selection` run:
whether a transaction was opened and whether it was committed, plus the
geometry and constraints requested from the host sketch object. -/
structure SynthResult where
  opened : Bool
  committed : Bool
  segments : List (Vector3 × Vector3)
  block_constraints : List ℕ
  vertex_map : List (Vector3 × List (ℕ × ℕ))
  coincident_attempts : List ((ℕ × ℕ) × (ℕ × ℕ))
  coincident_added : ℕ

/-- A run that produced no geometry. -/
def emptyResult (opened committed : Bool) : SynthResult :=
  ⟨opened, committed, [], [], [], [], 0⟩

/-- `create_sketch_from_selection`, with the host boundary made explicit:
`docExists` is `FreeCAD.ActiveDocument` being present, `edges` the selected
edges, `edge_mass_center` the dock state used for sign resolution, `userOk`
the placement-option dialog outcome, and `accept` the constraint solver's
decision on each coincidence request (a rejected request is logged and
skipped, the run continues).  The standalone placement path is modelled: the
final sketch's resolved global placement is the one computed from the
estimated plane, so local coordinates come from its inverse.  Host calls are
modelled as total (the exception-abort path is never taken). -/
def create_sketch_from_selection (docExists : Bool) (edges : List Edge)
    (edge_mass_center : Vector3) (userOk : Bool)
    (accept : ℕ × ℕ → ℕ × ℕ → Bool) : SynthResult :=
  if ¬docExists then emptyResult false false else
  if edges.isEmpty then emptyResult true false else
  let all_vertices := edges.flatMap (fun e => [e.1, e.2])
  let unique_vertices := dedup all_vertices
  let nc := calculate_robust_plane_normal_and_placement unique_vertices edge_mass_center
  let placement := create_robust_placement nc.1 nc.2
  if ¬userOk then emptyResult true false else
  let st := edges.foldl (processEdge placement.invVec) ⟨0, 0, [], [], []⟩
  let attempts := coincidentAttempts st.vertex_map
  ⟨true, true, st.segments, st.block_constraints, st.vertex_map, attempts,
    (attempts.filter (fun pr => accept pr.1 pr.2)).length⟩

/-! ## General lemmas about the embedded operations -/

@[simp] lemma zero_x : (0 : Vector3).x = 0 := rfl

@[simp] lemma zero_y : (0 : Vector3).y = 0 := rfl

@[simp] lemma zero_z : (0 : Vector3).z = 0 := rfl

@[simp] lemma add_x (a b : Vector3) : (a + b).x = a.x + b.x := rfl

@[simp] lemma add_y (a b : Vector3) : (a + b).y = a.y + b.y := rfl

@[simp] lemma add_z (a b : Vector3) : (a + b).z = a.z + b.z := rfl

@[simp] lemma sub_x (a b : Vector3) : (a - b).x = a.x - b.x := rfl

@[simp] lemma sub_y (a b : Vector3) : (a - b).y = a.y - b.y := rfl

@[simp] lemma sub_z (a b : Vector3) : (a - b).z = a.z - b.z := rfl

@[simp] lemma smul_x (c : ℝ) (v : Vector3) : (c • v).x = c * v.x := rfl

@[simp] lemma smul_y (c : ℝ) (v : Vector3) : (c • v).y = c * v.y := rfl

@[simp] lemma smul_z (c : ℝ) (v : Vector3) : (c • v).z = c * v.z := rfl

@[simp] lemma cross_x (a b : Vector3) : (a.cross b).x = a.y * b.z - a.z * b.y := rfl

@[simp] lemma cross_y (a b : Vector3) : (a.cross b).y = a.z * b.x - a.x * b.z := rfl

@[simp] lemma cross_z (a b : Vector3) : (a.cross b).z = a.x * b.y - a.y * b.x := rfl

lemma dot_def (a b : Vector3) : a.dot b = a.x * b.x + a.y * b.y + a.z * b.z := rfl

lemma normSq_def (v : Vector3) : v.normSq = v.x ^ 2 + v.y ^ 2 + v.z ^ 2 := rfl

lemma dot_comm (a b : Vector3) : a.dot b = b.dot a := by
  simp only [dot_def]; ring

lemma smul_dot (c : ℝ) (a b : Vector3) : (c • a).dot b = c * a.dot b := by
  simp only [dot_def, smul_x, smul_y, smul_z]; ring

lemma normSq_nonneg (v : Vector3) : 0 ≤ v.normSq := by
  rw [normSq_def]; positivity

lemma Length_nonneg (v : Vector3) : 0 ≤ v.Length := Real.sqrt_nonneg _

lemma Length_lt_iff (v : Vector3) {t : ℝ} (ht : 0 < t) :
    v.Length < t ↔ v.normSq < t ^ 2 := Real.sqrt_lt' ht

lemma lt_Length_iff (v : Vector3) {t : ℝ} (ht : 0 ≤ t) :
    t < v.Length ↔ t ^ 2 < v.normSq := Real.lt_sqrt ht

lemma Length_pos_iff (v : Vector3) : 0 < v.Length ↔ 0 < v.normSq := Real.sqrt_pos

lemma Length_eq_of_sq {v : Vector3} {c : ℝ} (hc : 0 ≤ c) (h : v.normSq = c ^ 2) :
    v.Length = c := by rw [Vector3.Length, h, Real.sqrt_sq hc]

lemma is_close_iff (p q : Vector3) {t : ℝ} (ht : 0 < t) :
    is_close p q t ↔ (p - q).normSq < t ^ 2 := Length_lt_iff _ ht

lemma Length_smul (c : ℝ) (v : Vector3) : (c • v).Length = |c| * v.Length := by
  have h : (c • v).normSq = c ^ 2 * v.normSq := by
    simp only [normSq_def, smul_x, smul_y, smul_z]; ring
  rw [Vector3.Length, h, Real.sqrt_mul (sq_nonneg c), Real.sqrt_sq_eq_abs,
    Vector3.Length]

lemma normSq_eq_one_of_length_eq_one {v : Vector3} (h : v.Length = 1) :
    v.normSq = 1 := by
  have := Real.sqrt_eq_one.mp h
  exact this

lemma normalize_length {v : Vector3} (h : 0 < v.Length) : v.normalize.Length = 1 := by
  rw [Vector3.normalize, Length_smul, abs_of_pos (by positivity)]
  field_simp

lemma normalize_of_length_eq_one {v : Vector3} (h : v.Length = 1) :
    v.normalize = v := by
  ext <;> simp [Vector3.normalize, h]

lemma zAxis_length : (⟨0, 0, 1⟩ : Vector3).Length = 1 := by
  refine Length_eq_of_sq one_pos.le ?_
  simp [normSq_def]

lemma zAxis_normalize : (⟨0, 0, 1⟩ : Vector3).normalize = ⟨0, 0, 1⟩ :=
  normalize_of_length_eq_one zAxis_length

/-! ### Quaternion lemmas -/

lemma qIdentity_apply (v : Vector3) : qIdentity.apply v = v := by
  ext <;>
    simp [Quat.apply, qIdentity, Quat.normSq, Quat.vec, Vector3.dot,
      normSq_def]

lemma qIdentity_conj : qIdentity.conj = qIdentity := by
  simp [Quat.conj, qIdentity]

lemma qRotX180_apply_z : qRotX180.apply ⟨0, 0, 1⟩ = ⟨0, 0, -1⟩ := by
  ext <;>
    simp [Quat.apply, qRotX180, Quat.normSq, Quat.vec, Vector3.dot,
      normSq_def]

/-- Division-free characterization of `Quat.apply`. -/
lemma Quat.apply_eq {q : Quat} {v w : Vector3} (hN : q.normSq ≠ 0)
    (h : (q.w ^ 2 - q.vec.normSq) • v + (2 * q.vec.dot v) • q.vec +
      (2 * q.w) • (q.vec.cross v) = q.normSq • w) :
    q.apply v = w := by
  rw [Quat.apply, h]
  refine Vector3.ext ?_ ?_ ?_ <;> simp only [smul_x, smul_y, smul_z] <;>
    field_simp

/-- The shortest-arc rotation from the world Z axis to a unit vector `b`
(with `b` not antipodal to Z) maps the world Z axis exactly onto `b`. -/
lemma qShortestArc_z_apply {b : Vector3} (hb : b.Length = 1) (hz : b.z ≠ -1) :
    (qShortestArc ⟨0, 0, 1⟩ b).apply ⟨0, 0, 1⟩ = b := by
  have hb' : b.normalize = b := normalize_of_length_eq_one hb
  have hsq : b.x ^ 2 + b.y ^ 2 + b.z ^ 2 = 1 := normSq_eq_one_of_length_eq_one hb
  have h1 : 1 + b.z ≠ 0 := fun h => hz (by linarith)
  have hN : (qShortestArc ⟨0, 0, 1⟩ b).normSq = 2 * (1 + b.z) := by
    simp only [qShortestArc, zAxis_normalize, hb', Quat.normSq, dot_def,
      cross_x, cross_y, cross_z]
    linear_combination hsq
  refine Quat.apply_eq (by rw [hN]; exact mul_ne_zero two_ne_zero h1) ?_
  rw [hN]
  refine Vector3.ext ?_ ?_ ?_
  · simp only [qShortestArc, Quat.vec, zAxis_normalize, hb', dot_def,
      normSq_def, cross_x, cross_y, cross_z, smul_x, smul_y, smul_z,
      add_x, add_y, add_z]
    ring
  · simp only [qShortestArc, Quat.vec, zAxis_normalize, hb', dot_def,
      normSq_def, cross_x, cross_y, cross_z, smul_x, smul_y, smul_z,
      add_x, add_y, add_z]
    ring
  · simp only [qShortestArc, Quat.vec, zAxis_normalize, hb', dot_def,
      normSq_def, cross_x, cross_y, cross_z, smul_x, smul_y, smul_z,
      add_x, add_y, add_z]
    linear_combination -hsq

/-! ### Vector auxiliaries -/

lemma normSq_eq_zero_iff (v : Vector3) : v.normSq = 0 ↔ v = 0 := by
  rw [normSq_def]
  constructor
  · intro h
    have hx : v.x = 0 := by nlinarith [sq_nonneg v.x, sq_nonneg v.y, sq_nonneg v.z]
    have hy : v.y = 0 := by nlinarith [sq_nonneg v.x, sq_nonneg v.y, sq_nonneg v.z]
    have hz : v.z = 0 := by nlinarith [sq_nonneg v.x, sq_nonneg v.y, sq_nonneg v.z]
    ext <;> simp [hx, hy, hz]
  · intro h; subst h; simp

lemma Length_pos_of_ne_zero {v : Vector3} (h : v ≠ 0) : 0 < v.Length := by
  rw [Length_pos_iff]
  rcases lt_or_eq_of_le (normSq_nonneg v) with h' | h'
  · exact h'
  · exact absurd ((normSq_eq_zero_iff v).mp h'.symm) h

lemma is_close_self {p : Vector3} {tol : ℝ} (htol : 0 < tol) : is_close p p tol := by
  rw [is_close_iff _ _ htol]
  have : (p - p).normSq = 0 := by simp [normSq_def]
  rw [this]; positivity

/-! ### Index-triple lemmas -/

lemma mem_rangeFrom {m a n : ℕ} : m ∈ rangeFrom a n ↔ a ≤ m ∧ m < n := by
  simp [rangeFrom, List.mem_filter, List.mem_range, and_comm]

lemma mem_allTriples {t : ℕ × ℕ × ℕ} {n : ℕ} :
    t ∈ allTriples n ↔ t.1 < t.2.1 ∧ t.2.1 < t.2.2 ∧ t.2.2 < n := by
  obtain ⟨i, j, k⟩ := t
  simp only [allTriples, List.mem_flatMap, List.mem_map, List.mem_range,
    mem_rangeFrom]
  constructor
  · rintro ⟨i', hi', j', ⟨hij', hj'⟩, k', ⟨hjk', hk'⟩, h⟩
    obtain ⟨rfl, rfl, rfl⟩ := Prod.mk.injEq .. ▸ (by
      injection h with h1 h2
      injection h2 with h2 h3
      exact ⟨h1.symm, h2.symm, h3.symm⟩ :
        i = i' ∧ j = j' ∧ k = k')
    exact ⟨hij', hjk', hk'⟩
  · rintro ⟨hij, hjk, hk⟩
    exact ⟨i, lt_trans (lt_trans hij hjk) hk, j, ⟨hij, lt_trans hjk hk⟩, k,
      ⟨hjk, hk⟩, rfl⟩

lemma getD_map_sub :
    ∀ (l : List Vector3) (c : Vector3) (i : ℕ), i < l.length →
      (l.map (fun v => v - c)).getD i 0 = l.getD i 0 - c
  | [], _, i, h => absurd h (by simp)
  | v :: l, c, 0, _ => rfl
  | v :: l, c, i + 1, h => by
      simp only [List.map_cons, List.getD_cons_succ]
      exact getD_map_sub l c i (by simpa using h)

lemma tripleCross_map_sub (l : List Vector3) (c : Vector3) {t : ℕ × ℕ × ℕ}
    (h : t ∈ allTriples l.length) :
    tripleCross (l.map (fun v => v - c)) t = tripleCross l t := by
  obtain ⟨i, j, k⟩ := t
  obtain ⟨h1, h2, h3⟩ := mem_allTriples.mp h
  simp only at h1 h2 h3
  unfold tripleCross
  simp only
  rw [getD_map_sub _ _ _ (lt_trans (lt_trans h1 h2) h3),
    getD_map_sub _ _ _ (lt_trans h2 h3), getD_map_sub _ _ _ h3]
  ext <;> simp

/-! ### Triple-loop fold lemmas -/

lemma bestStep_foldl_spec (vs : List Vector3) :
    ∀ (ts : List (ℕ × ℕ × ℕ)) (acc : ℝ × Option Vector3), 0 ≤ acc.1 →
      (∀ t ∈ ts, (tripleCross vs t).Length ≤ (ts.foldl (bestStep vs) acc).1) ∧
      acc.1 ≤ (ts.foldl (bestStep vs) acc).1 ∧
      ((ts.foldl (bestStep vs) acc) = acc ∨
        ∃ t ∈ ts, (ts.foldl (bestStep vs) acc).1 = (tripleCross vs t).Length ∧
          (ts.foldl (bestStep vs) acc).2 = some (tripleCross vs t).normalize ∧
          0 < (ts.foldl (bestStep vs) acc).1)
  | [], acc, _ => by simp
  | t :: ts, acc, hacc => by
      rw [List.foldl_cons]
      by_cases hgt : (tripleCross vs t).Length > acc.1
      · have hstep : bestStep vs acc t =
            ((tripleCross vs t).Length, some (tripleCross vs t).normalize) := by
          rw [bestStep, if_pos hgt]
        rw [hstep]
        have hpos : (0 : ℝ) < (tripleCross vs t).Length := lt_of_le_of_lt hacc hgt
        obtain ⟨hall, hle, hcase⟩ :=
          bestStep_foldl_spec vs ts
            ((tripleCross vs t).Length, some (tripleCross vs t).normalize) hpos.le
        refine ⟨?_, le_trans hgt.le hle, ?_⟩
        · intro t' ht'
          rcases List.mem_cons.mp ht' with rfl | ht'
          · exact hle
          · exact hall _ ht'
        · rcases hcase with heq | ⟨t', ht', h1, h2, h3⟩
          · exact Or.inr ⟨t, List.mem_cons_self t ts, by rw [heq], by rw [heq],
              by rw [heq]; exact hpos⟩
          · exact Or.inr ⟨t', List.mem_cons_of_mem _ ht', h1, h2, h3⟩
      · have hstep : bestStep vs acc t = acc := by rw [bestStep, if_neg hgt]
        rw [hstep]
        obtain ⟨hall, hle, hcase⟩ := bestStep_foldl_spec vs ts acc hacc
        refine ⟨?_, hle, ?_⟩
        · intro t' ht'
          rcases List.mem_cons.mp ht' with rfl | ht'
          · exact le_trans (not_lt.mp hgt) hle
          · exact hall _ ht'
        · rcases hcase with heq | ⟨t', ht', h1, h2, h3⟩
          · exact Or.inl heq
          · exact Or.inr ⟨t', List.mem_cons_of_mem _ ht', h1, h2, h3⟩

/-! ### Vertex-map lemmas -/

lemma registerPoint_new (tol : ℝ) (pt : Vector3) (r : ℕ × ℕ) :
    ∀ vm : List (Vector3 × List (ℕ × ℕ)),
      (∀ g ∈ vm, ¬ is_close pt g.1 tol) →
      registerPoint tol pt r vm = vm ++ [(pt, [r])]
  | [], _ => rfl
  | (k, refs) :: rest, h => by
      rw [registerPoint, if_neg (h (k, refs) (List.mem_cons_self _ _)),
        registerPoint_new tol pt r rest
          (fun g hg => h g (List.mem_cons_of_mem _ hg))]
      rfl

lemma registerPoint_found (tol : ℝ) (pt : Vector3) (r : ℕ × ℕ)
    (k : Vector3) (refs : List (ℕ × ℕ)) :
    ∀ (vm1 vm2 : List (Vector3 × List (ℕ × ℕ))),
      (∀ g ∈ vm1, ¬ is_close pt g.1 tol) → is_close pt k tol →
      registerPoint tol pt r (vm1 ++ (k, refs) :: vm2) =
        vm1 ++ (k, refs ++ [r]) :: vm2
  | [], vm2, _, hk => by rw [List.nil_append, registerPoint, if_pos hk]; rfl
  | (k', refs') :: vm1, vm2, h, hk => by
      rw [List.cons_append, registerPoint,
        if_neg (h (k', refs') (List.mem_cons_self _ _)),
        registerPoint_found tol pt r k refs vm1 vm2
          (fun g hg => h g (List.mem_cons_of_mem _ hg)) hk]
      rfl

lemma registerPoint_mem {tol : ℝ} (htol : 0 < tol) (pt : Vector3) (r : ℕ × ℕ) :
    ∀ (vm : List (Vector3 × List (ℕ × ℕ))),
      ∀ g' ∈ registerPoint tol pt r vm, ∀ r' ∈ g'.2,
        (∃ g ∈ vm, g.1 = g'.1 ∧ r' ∈ g.2) ∨ (r' = r ∧ is_close pt g'.1 tol)
  | [], g', hg', r', hr' => by
      rw [registerPoint] at hg'
      rcases List.mem_singleton.mp hg' with rfl
      rcases List.mem_singleton.mp hr' with rfl
      exact Or.inr ⟨rfl, is_close_self htol⟩
  | (k, refs) :: rest, g', hg', r', hr' => by
      rw [registerPoint] at hg'
      by_cases hk : is_close pt k tol
      · rw [if_pos hk] at hg'
        rcases List.mem_cons.mp hg' with rfl | hg'
        · rcases List.mem_append.mp hr' with hmem | hmem
          · exact Or.inl ⟨(k, refs), List.mem_cons_self _ _, rfl, hmem⟩
          · rcases List.mem_singleton.mp hmem with rfl
            exact Or.inr ⟨rfl, hk⟩
        · exact Or.inl ⟨g', List.mem_cons_of_mem _ hg', rfl, hr'⟩
      · rw [if_neg hk] at hg'
        rcases List.mem_cons.mp hg' with rfl | hg'
        · exact Or.inl ⟨(k, refs), List.mem_cons_self _ _, rfl, hr'⟩
        · rcases registerPoint_mem htol pt r rest g' hg' r' hr' with
            ⟨g, hg, h1, h2⟩ | h
          · exact Or.inl ⟨g, List.mem_cons_of_mem _ hg, h1, h2⟩
          · exact Or.inr h

/-- Invariant preservation through one registration: if every existing
reference has a source point (tracked by `P`) close to its group key, and the
newly registered reference's point satisfies `P`, the property persists. -/
lemma registerPoint_invariant {P : Vector3 → ℕ × ℕ → Prop} {tol : ℝ}
    (htol : 0 < tol) {vm : List (Vector3 × List (ℕ × ℕ))} {pt : Vector3}
    {r : ℕ × ℕ}
    (hvm : ∀ g ∈ vm, ∀ r' ∈ g.2, ∃ q, P q r' ∧ is_close q g.1 tol)
    (hpt : P pt r) :
    ∀ g ∈ registerPoint tol pt r vm, ∀ r' ∈ g.2,
      ∃ q, P q r' ∧ is_close q g.1 tol := by
  intro g hg r' hr'
  rcases registerPoint_mem htol pt r vm g hg r' hr' with ⟨g0, hg0, hkey, hmem⟩ | h
  · obtain ⟨q, hq, hclose⟩ := hvm g0 hg0 r' hmem
    exact ⟨q, hq, hkey ▸ hclose⟩
  · exact ⟨pt, h.1 ▸ hpt, h.2⟩

/-! ### Emission-loop lemmas -/

lemma processEdge_degenerate {e : Edge} (h : is_close e.1 e.2 0.001)
    (inv : Vector3 → Vector3) (st : LoopState) : processEdge inv st e = st := by
  rw [processEdge, if_pos h]

lemma foldl_skip_degenerate {e : Edge} (h : is_close e.1 e.2 0.001)
    (inv : Vector3 → Vector3) (pre post : List Edge) (st : LoopState) :
    (pre ++ e :: post).foldl (processEdge inv) st =
      (pre ++ post).foldl (processEdge inv) st := by
  rw [List.foldl_append, List.foldl_append, List.foldl_cons,
    processEdge_degenerate h]

/-- All loop-state components except the (placement-dependent) segments are
independent of the global-to-local transform. -/
lemma foldl_processEdge_inv_indep (inv inv' : Vector3 → Vector3) :
    ∀ (es : List Edge) (st st' : LoopState),
      st.geoCount = st'.geoCount → st.conCount = st'.conCount →
      st.vertex_map = st'.vertex_map →
      st.block_constraints = st'.block_constraints →
      (es.foldl (processEdge inv) st).geoCount =
          (es.foldl (processEdge inv') st').geoCount ∧
        (es.foldl (processEdge inv) st).conCount =
          (es.foldl (processEdge inv') st').conCount ∧
        (es.foldl (processEdge inv) st).vertex_map =
          (es.foldl (processEdge inv') st').vertex_map ∧
        (es.foldl (processEdge inv) st).block_constraints =
          (es.foldl (processEdge inv') st').block_constraints
  | [], st, st', h1, h2, h3, h4 => ⟨h1, h2, h3, h4⟩
  | e :: es, st, st', h1, h2, h3, h4 => by
      rw [List.foldl_cons, List.foldl_cons]
      by_cases hdeg : is_close e.1 e.2 0.001
      · rw [processEdge_degenerate hdeg, processEdge_degenerate hdeg]
        exact foldl_processEdge_inv_indep inv inv' es st st' h1 h2 h3 h4
      · rw [processEdge, if_neg hdeg, processEdge, if_neg hdeg]
        exact foldl_processEdge_inv_indep inv inv' es _ _
          (by simp [h1]) (by simp [h2]) (by simp [h1, h3]) (by simp [h2, h4])

lemma processEdge_fold_vertex_invariant {P : Vector3 → ℕ × ℕ → Prop}
    (inv : Vector3 → Vector3) :
    ∀ (es : List Edge) (st : LoopState),
      (∀ e ∈ es, ¬ is_close e.1 e.2 0.001 →
        (∀ n, P e.1 (n, 1)) ∧ (∀ n, P e.2 (n, 2))) →
      (∀ g ∈ st.vertex_map, ∀ r ∈ g.2, ∃ q, P q r ∧ is_close q g.1 0.001) →
      ∀ g ∈ (es.foldl (processEdge inv) st).vertex_map, ∀ r ∈ g.2,
        ∃ q, P q r ∧ is_close q g.1 0.001
  | [], st, _, hst => hst
  | e :: es, st, hes, hst => by
      rw [List.foldl_cons]
      by_cases hdeg : is_close e.1 e.2 0.001
      · rw [processEdge_degenerate hdeg]
        exact processEdge_fold_vertex_invariant inv es st
          (fun e' he' => hes e' (List.mem_cons_of_mem _ he')) hst
      · rw [processEdge, if_neg hdeg]
        refine processEdge_fold_vertex_invariant inv es _
          (fun e' he' => hes e' (List.mem_cons_of_mem _ he')) ?_
        have hP := hes e (List.mem_cons_self _ _) hdeg
        have h001 : (0 : ℝ) < 0.001 := by norm_num
        exact registerPoint_invariant h001
          (registerPoint_invariant h001 hst (hP.1 st.geoCount))
          (hP.2 st.geoCount)

/-! ### Classifier lemmas -/

lemma classify_sublist (pp pn : Vector3) (tol : ℝ) :
    ∀ es : List Edge, (classify pp pn tol es).Sublist es
  | [] => List.Sublist.refl []
  | e :: es => by
      rw [classify]
      by_cases h : is_coplanar pp pn tol e
      · rw [if_pos h]
        exact List.Sublist.cons₂ e (classify_sublist pp pn tol es)
      · rw [if_neg h]
        exact List.Sublist.cons e (classify_sublist pp pn tol es)

lemma classify_mem (pp pn : Vector3) (tol : ℝ) :
    ∀ (es : List Edge) (e : Edge),
      e ∈ classify pp pn tol es ↔ e ∈ es ∧ is_coplanar pp pn tol e
  | [], e => by simp [classify]
  | e' :: es, e => by
      rw [classify]
      by_cases h : is_coplanar pp pn tol e'
      · rw [if_pos h]
        constructor
        · intro hmem
          rcases List.mem_cons.mp hmem with rfl | hmem
          · exact ⟨List.mem_cons_self _ _, h⟩
          · obtain ⟨h1, h2⟩ := (classify_mem pp pn tol es e).mp hmem
            exact ⟨List.mem_cons_of_mem _ h1, h2⟩
        · rintro ⟨hmem, hcop⟩
          rcases List.mem_cons.mp hmem with rfl | hmem
          · exact List.mem_cons_self _ _
          · exact List.mem_cons_of_mem _
              ((classify_mem pp pn tol es e).mpr ⟨hmem, hcop⟩)
      · rw [if_neg h]
        constructor
        · intro hmem
          obtain ⟨h1, h2⟩ := (classify_mem pp pn tol es e).mp hmem
          exact ⟨List.mem_cons_of_mem _ h1, h2⟩
        · rintro ⟨hmem, hcop⟩
          rcases List.mem_cons.mp hmem with rfl | hmem
          · exact absurd hcop h
          · exact (classify_mem pp pn tol es e).mpr ⟨hmem, hcop⟩

/-! ### Star-pair lemmas -/

lemma starPairs_length : ∀ refs : List (ℕ × ℕ),
    (starPairs refs).length = refs.length - 1
  | [] => rfl
  | _ :: rest => by simp [starPairs]

lemma starPairs_mem {refs : List (ℕ × ℕ)} {pr : (ℕ × ℕ) × (ℕ × ℕ)}
    (h : pr ∈ starPairs refs) :
    ∃ first rest, refs = first :: rest ∧ pr.1 = first ∧ pr.2 ∈ rest := by
  match refs with
  | [] => exact absurd h (by simp [starPairs])
  | first :: rest =>
      rw [starPairs] at h
      obtain ⟨r, hr, heq⟩ := List.mem_map.mp h
      exact ⟨first, rest, rfl, by rw [← heq], by rw [← heq]; exact hr⟩

/-! ### Estimator unfolding and evaluation helpers -/

lemma Length_zero : (0 : Vector3).Length = 0 := by
  rw [Vector3.Length]
  have : (0 : Vector3).normSq = 0 := by simp [normSq_def]
  rw [this, Real.sqrt_zero]

lemma Length_eq_zero_of_eq_zero {v : Vector3} (h : v = 0) : v.Length = 0 := by
  rw [h, Length_zero]

lemma ne_zero_of_length_pos {v : Vector3} (h : 0 < v.Length) : v ≠ 0 :=
  fun hv => absurd (Length_eq_zero_of_eq_zero hv) (by linarith)

lemma not_close_of_normSq {p q : Vector3} {tol : ℝ} (ht : 0 < tol)
    (h : ¬ (p - q).normSq < tol ^ 2) : ¬ is_close p q tol := by
  rw [is_close_iff _ _ ht]; exact h

lemma close_of_normSq {p q : Vector3} {tol : ℝ} (ht : 0 < tol)
    (h : (p - q).normSq < tol ^ 2) : is_close p q tol :=
  (is_close_iff _ _ ht).mpr h

/-- Unfolding of the plane estimator on the main (≥ 3 points) branch. -/
lemma calculate_eq (vertices : List Vector3) (mc : Vector3)
    (h3 : ¬ vertices.length < 3) :
    calculate_robust_plane_normal_and_placement vertices mc =
      ((if (((1 / (vertices.length : ℝ)) • vsum vertices) - mc).Length > 1e-6 ∧
            ((((1 / (vertices.length : ℝ)) • vsum vertices) - mc)).normalize.dot
              ((bestNormalSearch (vertices.map (fun v =>
                v - (1 / (vertices.length : ℝ)) • vsum vertices))).2.getD
                ⟨0, 0, 1⟩) < 0
        then (-1 : ℝ) • ((bestNormalSearch (vertices.map (fun v =>
                v - (1 / (vertices.length : ℝ)) • vsum vertices))).2.getD
                ⟨0, 0, 1⟩)
        else (bestNormalSearch (vertices.map (fun v =>
                v - (1 / (vertices.length : ℝ)) • vsum vertices))).2.getD
                ⟨0, 0, 1⟩),
       (1 / (vertices.length : ℝ)) • vsum vertices) := by
  rw [calculate_robust_plane_normal_and_placement, if_neg h3]

/-- If every triple's candidate normal vanishes, the triple loop finds
nothing. -/
lemma bestStep_foldl_all_zero (vs : List Vector3) :
    ∀ ts : List (ℕ × ℕ × ℕ), (∀ t ∈ ts, tripleCross vs t = 0) →
      ts.foldl (bestStep vs) (0, none) = (0, none)
  | [], _ => rfl
  | t :: ts, h => by
      rw [List.foldl_cons]
      have hz : (tripleCross vs t).Length = 0 :=
        Length_eq_zero_of_eq_zero (h t (List.mem_cons_self _ _))
      have hstep : bestStep vs (0, none) t = (0, none) := by
        rw [bestStep, if_neg]
        simp [hz]
      rw [hstep]
      exact bestStep_foldl_all_zero vs ts
        (fun t' ht' => h t' (List.mem_cons_of_mem _ ht'))

/-! ## Claim theorems -/

/-- C1, counterexample: with fewer than 3 points the function returns the
fallback `((0,0,1), (0,0,0))` before the sign-resolution step ever runs, so
for the empty point list and reference center `(0,0,1)` the centroid is more
than `1e-6` away from the reference center yet the returned normal has
negative dot product with `centroid - referenceCenter`.  This refutes the
claim's "including those with fewer than 3 points". -/
theorem C1_cex_fewer_than_three_points :
    ((calculate_robust_plane_normal_and_placement [] ⟨0, 0, 1⟩).2 -
        ⟨0, 0, 1⟩).Length > 1e-6 ∧
      (calculate_robust_plane_normal_and_placement [] ⟨0, 0, 1⟩).1.dot
        ((calculate_robust_plane_normal_and_placement [] ⟨0, 0, 1⟩).2 -
          ⟨0, 0, 1⟩) < 0 := by
  have h : calculate_robust_plane_normal_and_placement [] ⟨0, 0, 1⟩ =
      (⟨0, 0, 1⟩, ⟨0, 0, 0⟩) := by
    rw [calculate_robust_plane_normal_and_placement, if_pos (by simp)]
  rw [h]
  constructor
  · rw [gt_iff_lt, lt_Length_iff _ (by norm_num)]
    simp only [normSq_def, sub_x, sub_y, sub_z]
    norm_num
  · simp only [dot_def, sub_x, sub_y, sub_z]
    norm_num

/-- C1, amended: for every input with at least 3 points, whenever the
distance between the returned centroid and the reference center exceeds
`1e-6`, the returned normal has nonnegative dot product with
`centroid - referenceCenter` (the sign-resolution step guarantees it). -/
theorem C1_sign_resolution (vertices : List Vector3) (ref : Vector3)
    (h3 : 3 ≤ vertices.length)
    (hfar : ((calculate_robust_plane_normal_and_placement vertices ref).2 -
      ref).Length > 1e-6) :
    0 ≤ (calculate_robust_plane_normal_and_placement vertices ref).1.dot
      ((calculate_robust_plane_normal_and_placement vertices ref).2 - ref) := by
  have h3' : ¬ vertices.length < 3 := not_lt.mpr h3
  rw [calculate_eq vertices ref h3'] at hfar ⊢
  set delta := ((1 / (vertices.length : ℝ)) • vsum vertices) - ref with hdelta
  set n0 := (bestNormalSearch (vertices.map (fun v =>
    v - (1 / (vertices.length : ℝ)) • vsum vertices))).2.getD
    (⟨0, 0, 1⟩ : Vector3) with hn0
  simp only at hfar ⊢
  have hL : 0 < delta.Length := lt_trans (by norm_num) hfar
  have hnorm : delta.normalize.dot n0 = (1 / delta.Length) * (delta.dot n0) := by
    rw [Vector3.normalize, smul_dot]
  have h1L : 0 < 1 / delta.Length := by positivity
  by_cases hneg : delta.normalize.dot n0 < 0
  · rw [if_pos ⟨hfar, hneg⟩, smul_dot]
    rw [hnorm] at hneg
    have hd0 : delta.dot n0 < 0 := by nlinarith
    rw [dot_comm] at hd0
    nlinarith
  · rw [if_neg (fun hand => hneg hand.2)]
    rw [hnorm] at hneg
    push_neg at hneg
    have hd0 : 0 ≤ delta.dot n0 := by nlinarith
    rw [dot_comm] at hd0
    exact hd0

/-- C1, witness: a concrete 3-point input on which the amended theorem's
hypotheses hold. -/
theorem C1_witness :
    3 ≤ ([⟨0, 0, 0⟩, ⟨1, 0, 0⟩, ⟨0, 1, 0⟩] : List Vector3).length ∧
    ((calculate_robust_plane_normal_and_placement
        [⟨0, 0, 0⟩, ⟨1, 0, 0⟩, ⟨0, 1, 0⟩] ⟨1/3, 1/3, -5⟩).2 -
      ⟨1/3, 1/3, -5⟩).Length > 1e-6 ∧
    0 ≤ (calculate_robust_plane_normal_and_placement
        [⟨0, 0, 0⟩, ⟨1, 0, 0⟩, ⟨0, 1, 0⟩] ⟨1/3, 1/3, -5⟩).1.dot
      ((calculate_robust_plane_normal_and_placement
        [⟨0, 0, 0⟩, ⟨1, 0, 0⟩, ⟨0, 1, 0⟩] ⟨1/3, 1/3, -5⟩).2 -
        ⟨1/3, 1/3, -5⟩) := by
  have h3 : 3 ≤ ([⟨0, 0, 0⟩, ⟨1, 0, 0⟩, ⟨0, 1, 0⟩] : List Vector3).length := by
    simp
  have hc2 : (calculate_robust_plane_normal_and_placement
      [⟨0, 0, 0⟩, ⟨1, 0, 0⟩, ⟨0, 1, 0⟩] ⟨1/3, 1/3, -5⟩).2 =
      ⟨1/3, 1/3, 0⟩ := by
    rw [calculate_eq _ _ (not_lt.mpr h3)]
    ext <;> simp [vsum, List.foldl]
  have hfar : ((calculate_robust_plane_normal_and_placement
      [⟨0, 0, 0⟩, ⟨1, 0, 0⟩, ⟨0, 1, 0⟩] ⟨1/3, 1/3, -5⟩).2 -
      ⟨1/3, 1/3, -5⟩).Length > 1e-6 := by
    rw [hc2, gt_iff_lt, lt_Length_iff _ (by norm_num)]
    simp only [normSq_def, sub_x, sub_y, sub_z]
    norm_num
  exact ⟨h3, hfar, C1_sign_resolution _ _ h3 hfar⟩

/-- C4, amended: fewer than 3 points yields the defined fallback
`((0,0,1), (0,0,0))`; for exactly 3 collinear points (every triple's cross
product vanishes) the fallback normal `(0,0,1)` is selected, but the
subsequent sign-resolution step may still negate it, so the returned normal
is `(0,0,1)` or `(0,0,-1)`. -/
theorem C4_fallbacks (vertices : List Vector3) (ref : Vector3) :
    (vertices.length < 3 →
      calculate_robust_plane_normal_and_placement vertices ref =
        (⟨0, 0, 1⟩, ⟨0, 0, 0⟩)) ∧
    (vertices.length = 3 →
      (∀ t ∈ allTriples vertices.length, tripleCross vertices t = 0) →
      ((calculate_robust_plane_normal_and_placement vertices ref).1 =
          ⟨0, 0, 1⟩ ∨
        (calculate_robust_plane_normal_and_placement vertices ref).1 =
          ⟨0, 0, -1⟩)) := by
  constructor
  · intro h
    rw [calculate_robust_plane_normal_and_placement, if_pos h]
  · intro h3 hcol
    have h3' : ¬ vertices.length < 3 := by omega
    rw [calculate_eq _ _ h3']
    set m := (1 / (vertices.length : ℝ)) • vsum vertices with hm
    have hzero : ∀ t ∈ allTriples ((vertices.map (fun v => v - m)).length),
        tripleCross (vertices.map (fun v => v - m)) t = 0 := by
      intro t ht
      rw [List.length_map] at ht
      rw [tripleCross_map_sub vertices m ht]
      exact hcol t ht
    have hbest : bestNormalSearch (vertices.map (fun v => v - m)) =
        (0, none) := by
      rw [bestNormalSearch]
      exact bestStep_foldl_all_zero _ _ hzero
    have hflip : ((-1 : ℝ) • (⟨0, 0, 1⟩ : Vector3)) = ⟨0, 0, -1⟩ := by
      ext <;> simp
    by_cases hif : (m - ref).Length > 1e-6 ∧
        (m - ref).normalize.dot
          ((bestNormalSearch (vertices.map (fun v => v - m))).2.getD
            ⟨0, 0, 1⟩) < 0
    · right
      show (if _ ∧ _ then _ else _) = _
      rw [if_pos hif, hbest]
      simpa using hflip
    · left
      show (if _ ∧ _ then _ else _) = _
      rw [if_neg hif, hbest]
      rfl

/-- C4, counterexample: three collinear points whose centroid lies below the
reference mass center.  The fallback normal `(0,0,1)` is selected, but the
sign-resolution step then flips it, so the returned normal is `(0,0,-1)`,
not `(0,0,1)` as claimed. -/
theorem C4_cex_sign_flip_of_collinear_fallback :
    (calculate_robust_plane_normal_and_placement
        [⟨0, 0, 0⟩, ⟨1, 0, 0⟩, ⟨2, 0, 0⟩] ⟨1, 0, 10⟩).1 = ⟨0, 0, -1⟩ ∧
      (⟨0, 0, -1⟩ : Vector3) ≠ ⟨0, 0, 1⟩ := by
  constructor
  · have h3' : ¬ ([⟨0, 0, 0⟩, ⟨1, 0, 0⟩, ⟨2, 0, 0⟩] : List Vector3).length < 3 := by
      simp
    rw [calculate_eq _ _ h3']
    have hm : (1 / ((([⟨0, 0, 0⟩, ⟨1, 0, 0⟩, ⟨2, 0, 0⟩] : List Vector3).length : ℕ) : ℝ)) •
        vsum [⟨0, 0, 0⟩, ⟨1, 0, 0⟩, ⟨2, 0, 0⟩] = ⟨1, 0, 0⟩ := by
      ext <;> norm_num [vsum, List.foldl]
    rw [hm]
    have hzero : ∀ t ∈ allTriples
        ((List.map (fun v => v - (⟨1, 0, 0⟩ : Vector3))
          [⟨0, 0, 0⟩, ⟨1, 0, 0⟩, ⟨2, 0, 0⟩]).length),
        tripleCross (List.map (fun v => v - (⟨1, 0, 0⟩ : Vector3))
          [⟨0, 0, 0⟩, ⟨1, 0, 0⟩, ⟨2, 0, 0⟩]) t = 0 := by
      intro t ht
      rw [List.length_map] at ht
      rw [tripleCross_map_sub _ _ ht]
      have h123 : allTriples ([⟨0, 0, 0⟩, ⟨1, 0, 0⟩, ⟨2, 0, 0⟩] :
          List Vector3).length = [(0, 1, 2)] := by decide
      rw [h123] at ht
      rcases List.mem_singleton.mp ht with rfl
      ext <;> simp [tripleCross, List.getD]
    have hbest : bestNormalSearch (List.map (fun v => v - (⟨1, 0, 0⟩ : Vector3))
        [⟨0, 0, 0⟩, ⟨1, 0, 0⟩, ⟨2, 0, 0⟩]) = (0, none) := by
      rw [bestNormalSearch]
      exact bestStep_foldl_all_zero _ _ hzero
    have hdL : ((⟨1, 0, 0⟩ : Vector3) - ⟨1, 0, 10⟩).Length = 10 :=
      Length_eq_of_sq (by norm_num) (by norm_num [normSq_def])
    show (if _ ∧ _ then _ else _) = _
    rw [hbest]
    simp only [Option.getD_none]
    rw [if_pos ?_]
    · ext <;> simp
    · constructor
      · rw [gt_iff_lt, hdL]; norm_num
      · rw [Vector3.normalize, smul_dot, hdL]
        simp only [dot_def, sub_x, sub_y, sub_z]
        norm_num
  · intro h
    have := congrArg Vector3.z h
    norm_num at this

/-- C4, witness: the amended theorem applied to a concrete collinear
3-point input. -/
theorem C4_witness :
    (([⟨0, 0, 0⟩, ⟨1, 0, 0⟩, ⟨2, 0, 0⟩] : List Vector3).length = 3 ∧
      (∀ t ∈ allTriples ([⟨0, 0, 0⟩, ⟨1, 0, 0⟩, ⟨2, 0, 0⟩] :
          List Vector3).length,
        tripleCross [⟨0, 0, 0⟩, ⟨1, 0, 0⟩, ⟨2, 0, 0⟩] t = 0)) ∧
    ((calculate_robust_plane_normal_and_placement
        [⟨0, 0, 0⟩, ⟨1, 0, 0⟩, ⟨2, 0, 0⟩] ⟨1, 0, 10⟩).1 = ⟨0, 0, 1⟩ ∨
      (calculate_robust_plane_normal_and_placement
        [⟨0, 0, 0⟩, ⟨1, 0, 0⟩, ⟨2, 0, 0⟩] ⟨1, 0, 10⟩).1 = ⟨0, 0, -1⟩) := by
  have hcol : ∀ t ∈ allTriples ([⟨0, 0, 0⟩, ⟨1, 0, 0⟩, ⟨2, 0, 0⟩] :
      List Vector3).length,
      tripleCross [⟨0, 0, 0⟩, ⟨1, 0, 0⟩, ⟨2, 0, 0⟩] t = 0 := by
    intro t ht
    have h123 : allTriples ([⟨0, 0, 0⟩, ⟨1, 0, 0⟩, ⟨2, 0, 0⟩] :
        List Vector3).length = [(0, 1, 2)] := by decide
    rw [h123] at ht
    rcases List.mem_singleton.mp ht with rfl
    ext <;> simp [tripleCross, List.getD]
  exact ⟨⟨rfl, hcol⟩, (C4_fallbacks _ _).2 rfl hcol⟩

/-- C3: for at least 3 points that are not all collinear, the estimator
returns the arithmetic mean of the inputs as the centroid, and a unit-length
normal that is (up to the sign-resolution flip) the normalization of a
largest-magnitude cross product `(v_j - v_i) × (v_k - v_i)` over all index
triples `i < j < k` (translation by the centroid leaves these differences
unchanged, so they may be read off the original points). -/
theorem C3_best_triple_normal (vertices : List Vector3) (ref : Vector3)
    (h3 : 3 ≤ vertices.length)
    (hnc : ∃ t ∈ allTriples vertices.length, tripleCross vertices t ≠ 0) :
    (calculate_robust_plane_normal_and_placement vertices ref).2 =
        (1 / (vertices.length : ℝ)) • vsum vertices ∧
      (calculate_robust_plane_normal_and_placement vertices ref).1.Length = 1 ∧
      ∃ t ∈ allTriples vertices.length,
        tripleCross vertices t ≠ 0 ∧
        (∀ t' ∈ allTriples vertices.length,
          (tripleCross vertices t').Length ≤ (tripleCross vertices t).Length) ∧
        ((calculate_robust_plane_normal_and_placement vertices ref).1 =
            (tripleCross vertices t).normalize ∨
          (calculate_robust_plane_normal_and_placement vertices ref).1 =
            (-1 : ℝ) • (tripleCross vertices t).normalize) := by
  have h3' : ¬ vertices.length < 3 := not_lt.mpr h3
  have hpair := calculate_eq vertices ref h3'
  set m := (1 / (vertices.length : ℝ)) • vsum vertices with hm
  set vecs := vertices.map (fun v => v - m) with hvecs
  set n0 := (bestNormalSearch vecs).2.getD (⟨0, 0, 1⟩ : Vector3) with hn0def
  have hfst : (calculate_robust_plane_normal_and_placement vertices ref).1 =
      if (m - ref).Length > 1e-6 ∧ (m - ref).normalize.dot n0 < 0 then
        (-1 : ℝ) • n0
      else n0 := by rw [hpair]
  have hsnd : (calculate_robust_plane_normal_and_placement vertices ref).2 = m := by
    rw [hpair]
  have hlen : vecs.length = vertices.length := by rw [hvecs, List.length_map]
  obtain ⟨hall, hle, hcase⟩ :=
    bestStep_foldl_spec vecs (allTriples vecs.length) (0, none) le_rfl
  have hB : (allTriples vecs.length).foldl (bestStep vecs) (0, none) =
      bestNormalSearch vecs := rfl
  rw [hB] at hall hle hcase
  obtain ⟨t0, ht0, hc0⟩ := hnc
  have ht0v : t0 ∈ allTriples vecs.length := by rw [hlen]; exact ht0
  have hcross0 : tripleCross vecs t0 = tripleCross vertices t0 :=
    tripleCross_map_sub vertices m ht0
  have hrpos : 0 < (bestNormalSearch vecs).1 := by
    refine lt_of_lt_of_le ?_ (hall t0 ht0v)
    rw [hcross0]
    exact Length_pos_of_ne_zero hc0
  rcases hcase with heq | ⟨t1, ht1, h1, h2, hposr⟩
  · rw [heq] at hrpos
    norm_num at hrpos
  · have ht1' : t1 ∈ allTriples vertices.length := by rw [← hlen]; exact ht1
    have hcross1 : tripleCross vecs t1 = tripleCross vertices t1 :=
      tripleCross_map_sub vertices m ht1'
    have hpos1 : 0 < (tripleCross vertices t1).Length := by
      rw [← hcross1, ← h1]
      exact hposr
    have hne1 : tripleCross vertices t1 ≠ 0 := by
      intro h
      rw [h, Length_zero] at hpos1
      exact lt_irrefl 0 hpos1
    have hn0 : n0 = (tripleCross vertices t1).normalize := by
      rw [hn0def, h2, Option.getD_some, hcross1]
    have hunit : n0.Length = 1 := by
      rw [hn0]
      exact normalize_length hpos1
    refine ⟨hsnd, ?_, t1, ht1', hne1, ?_, ?_⟩
    · rw [hfst]
      by_cases hif : (m - ref).Length > 1e-6 ∧ (m - ref).normalize.dot n0 < 0
      · rw [if_pos hif, Length_smul, hunit]
        norm_num
      · rw [if_neg hif]
        exact hunit
    · intro t' ht'
      have ht'v : t' ∈ allTriples vecs.length := by rw [hlen]; exact ht'
      have hcross' : tripleCross vecs t' = tripleCross vertices t' :=
        tripleCross_map_sub vertices m ht'
      have := hall t' ht'v
      rw [hcross'] at this
      rw [← hcross1, ← h1]
      exact this
    · rw [hfst]
      by_cases hif : (m - ref).Length > 1e-6 ∧ (m - ref).normalize.dot n0 < 0
      · rw [if_pos hif, hn0]
        exact Or.inr rfl
      · rw [if_neg hif, hn0]
        exact Or.inl rfl

/-- C3, witness: a concrete non-collinear 3-point input. -/
theorem C3_witness :
    (3 ≤ ([⟨0, 0, 0⟩, ⟨1, 0, 0⟩, ⟨0, 1, 0⟩] : List Vector3).length ∧
      ∃ t ∈ allTriples ([⟨0, 0, 0⟩, ⟨1, 0, 0⟩, ⟨0, 1, 0⟩] :
          List Vector3).length,
        tripleCross [⟨0, 0, 0⟩, ⟨1, 0, 0⟩, ⟨0, 1, 0⟩] t ≠ 0) ∧
    ((calculate_robust_plane_normal_and_placement
        [⟨0, 0, 0⟩, ⟨1, 0, 0⟩, ⟨0, 1, 0⟩] ⟨0, 0, 0⟩).2 =
        (1 / (([⟨0, 0, 0⟩, ⟨1, 0, 0⟩, ⟨0, 1, 0⟩] : List Vector3).length : ℝ)) •
          vsum [⟨0, 0, 0⟩, ⟨1, 0, 0⟩, ⟨0, 1, 0⟩] ∧
      (calculate_robust_plane_normal_and_placement
        [⟨0, 0, 0⟩, ⟨1, 0, 0⟩, ⟨0, 1, 0⟩] ⟨0, 0, 0⟩).1.Length = 1 ∧
      ∃ t ∈ allTriples ([⟨0, 0, 0⟩, ⟨1, 0, 0⟩, ⟨0, 1, 0⟩] :
          List Vector3).length,
        tripleCross [⟨0, 0, 0⟩, ⟨1, 0, 0⟩, ⟨0, 1, 0⟩] t ≠ 0 ∧
        (∀ t' ∈ allTriples ([⟨0, 0, 0⟩, ⟨1, 0, 0⟩, ⟨0, 1, 0⟩] :
            List Vector3).length,
          (tripleCross [⟨0, 0, 0⟩, ⟨1, 0, 0⟩, ⟨0, 1, 0⟩] t').Length ≤
            (tripleCross [⟨0, 0, 0⟩, ⟨1, 0, 0⟩, ⟨0, 1, 0⟩] t).Length) ∧
        ((calculate_robust_plane_normal_and_placement
            [⟨0, 0, 0⟩, ⟨1, 0, 0⟩, ⟨0, 1, 0⟩] ⟨0, 0, 0⟩).1 =
            (tripleCross [⟨0, 0, 0⟩, ⟨1, 0, 0⟩, ⟨0, 1, 0⟩] t).normalize ∨
          (calculate_robust_plane_normal_and_placement
            [⟨0, 0, 0⟩, ⟨1, 0, 0⟩, ⟨0, 1, 0⟩] ⟨0, 0, 0⟩).1 =
            (-1 : ℝ) •
              (tripleCross [⟨0, 0, 0⟩, ⟨1, 0, 0⟩, ⟨0, 1, 0⟩] t).normalize)) := by
  have h3 : 3 ≤ ([⟨0, 0, 0⟩, ⟨1, 0, 0⟩, ⟨0, 1, 0⟩] : List Vector3).length := by
    simp
  have hcr : tripleCross [⟨0, 0, 0⟩, ⟨1, 0, 0⟩, ⟨0, 1, 0⟩] (0, 1, 2) =
      ⟨0, 0, 1⟩ := by
    ext <;> simp [tripleCross, List.getD]
  have hnc : ∃ t ∈ allTriples ([⟨0, 0, 0⟩, ⟨1, 0, 0⟩, ⟨0, 1, 0⟩] :
      List Vector3).length,
      tripleCross [⟨0, 0, 0⟩, ⟨1, 0, 0⟩, ⟨0, 1, 0⟩] t ≠ 0 := by
    refine ⟨(0, 1, 2), ?_, ?_⟩
    · have h123 : allTriples ([⟨0, 0, 0⟩, ⟨1, 0, 0⟩, ⟨0, 1, 0⟩] :
          List Vector3).length = [(0, 1, 2)] := by decide
      rw [h123]
      exact List.mem_singleton.mpr rfl
    · rw [hcr]
      intro h
      have := congrArg Vector3.z h
      norm_num at this
  exact ⟨⟨h3, hnc⟩, C3_best_triple_normal _ _ h3 hnc⟩

/-- C5, amended: `create_robust_placement` selects the rotation exactly as
described (identity / 180° about X / shortest arc), and applying the rotation
to world Z reproduces the (safe-)normalized input exactly in the shortest-arc
branch; in the near-axis branch (`|dot| > 0.999`) the rotation sends world Z
to `(0,0,1)` or `(0,0,-1)` — only an approximation of the normal there. -/
theorem C5_rotation_selection (normal center : Vector3) :
    (create_robust_placement normal center).base = center ∧
    ((|(safeNormal normal).dot ⟨0, 0, 1⟩| > 0.999 ∧ (safeNormal normal).z > 0) →
      (create_robust_placement normal center).rot = qIdentity) ∧
    ((|(safeNormal normal).dot ⟨0, 0, 1⟩| > 0.999 ∧
        ¬ (safeNormal normal).z > 0) →
      (create_robust_placement normal center).rot = qRotX180) ∧
    (¬ |(safeNormal normal).dot ⟨0, 0, 1⟩| > 0.999 →
      (create_robust_placement normal center).rot =
          qShortestArc ⟨0, 0, 1⟩ (safeNormal normal) ∧
        (create_robust_placement normal center).rot.apply ⟨0, 0, 1⟩ =
          safeNormal normal) ∧
    ((|(safeNormal normal).dot ⟨0, 0, 1⟩| > 0.999 ∧ (safeNormal normal).z > 0) →
      (create_robust_placement normal center).rot.apply ⟨0, 0, 1⟩ = ⟨0, 0, 1⟩) ∧
    ((|(safeNormal normal).dot ⟨0, 0, 1⟩| > 0.999 ∧
        ¬ (safeNormal normal).z > 0) →
      (create_robust_placement normal center).rot.apply ⟨0, 0, 1⟩ =
        ⟨0, 0, -1⟩) := by
  have hbase : (create_robust_placement normal center).base = center := by
    rw [create_robust_placement]
  have hrot : (create_robust_placement normal center).rot =
      if |(safeNormal normal).dot ⟨0, 0, 1⟩| > 0.999 then
        (if (safeNormal normal).z > 0 then qIdentity else qRotX180)
      else qShortestArc ⟨0, 0, 1⟩ (safeNormal normal) := by
    rw [create_robust_placement]
  have hid : ((|(safeNormal normal).dot ⟨0, 0, 1⟩| > 0.999 ∧
      (safeNormal normal).z > 0) →
      (create_robust_placement normal center).rot = qIdentity) := by
    rintro ⟨h1, h2⟩
    rw [hrot, if_pos h1, if_pos h2]
  have hx180 : ((|(safeNormal normal).dot ⟨0, 0, 1⟩| > 0.999 ∧
      ¬ (safeNormal normal).z > 0) →
      (create_robust_placement normal center).rot = qRotX180) := by
    rintro ⟨h1, h2⟩
    rw [hrot, if_pos h1, if_neg h2]
  refine ⟨hbase, hid, hx180, ?_, ?_, ?_⟩
  · intro h1
    have harc : (create_robust_placement normal center).rot =
        qShortestArc ⟨0, 0, 1⟩ (safeNormal normal) := by
      rw [hrot, if_neg h1]
    refine ⟨harc, ?_⟩
    rw [harc]
    have hdotz : (safeNormal normal).dot ⟨0, 0, 1⟩ = (safeNormal normal).z := by
      rw [dot_def]; ring
    by_cases hl : normal.Length > 1e-6
    · have hsn : safeNormal normal = normal.normalize := by
        rw [safeNormal, if_pos hl]
      have hunit : (safeNormal normal).Length = 1 := by
        rw [hsn]
        exact normalize_length (lt_trans (by norm_num) hl)
      have hz : (safeNormal normal).z ≠ -1 := by
        intro hz
        apply h1
        rw [hdotz, hz]
        norm_num
      exact qShortestArc_z_apply hunit hz
    · exfalso
      apply h1
      have hsn : safeNormal normal = ⟨0, 0, 1⟩ := by
        rw [safeNormal, if_neg hl]
      rw [hsn, dot_def]
      norm_num
  · intro h
    rw [hid h, qIdentity_apply]
  · intro h
    rw [hx180 h, qRotX180_apply_z]

/-- C5, counterexample: for the input normal `(1, 0, 30)` (length above the
degenerate threshold), the near-axis branch is taken and the identity
rotation is chosen, so applying the returned rotation to world Z yields
`(0,0,1)`, which differs from the normalized input `(1,0,30)/sqrt 901`. -/
theorem C5_cex_near_axis_not_exact :
    (⟨1, 0, 30⟩ : Vector3).Length > 1e-6 ∧
      (create_robust_placement ⟨1, 0, 30⟩ ⟨0, 0, 0⟩).rot.apply ⟨0, 0, 1⟩ ≠
        (⟨1, 0, 30⟩ : Vector3).normalize := by
  have hnsq : (⟨1, 0, 30⟩ : Vector3).normSq = 901 := by
    rw [normSq_def]; norm_num
  have hL : (⟨1, 0, 30⟩ : Vector3).Length = Real.sqrt 901 := by
    rw [Vector3.Length, hnsq]
  have hs0 : 0 < Real.sqrt 901 := Real.sqrt_pos.mpr (by norm_num)
  have hsu : Real.sqrt 901 < 30.03 := (Real.sqrt_lt' (by norm_num)).mpr (by norm_num)
  have hsl : (30 : ℝ) < Real.sqrt 901 := (Real.lt_sqrt (by norm_num)).mpr (by norm_num)
  have hgt : (⟨1, 0, 30⟩ : Vector3).Length > 1e-6 := by
    rw [hL]
    linarith
  refine ⟨hgt, ?_⟩
  have hsn : safeNormal ⟨1, 0, 30⟩ = (⟨1, 0, 30⟩ : Vector3).normalize := by
    rw [safeNormal, if_pos hgt]
  have hdot : (safeNormal ⟨1, 0, 30⟩).dot ⟨0, 0, 1⟩ = 30 / Real.sqrt 901 := by
    rw [hsn, Vector3.normalize, smul_dot, hL, dot_def]
    norm_num
    ring
  have hzc : (safeNormal ⟨1, 0, 30⟩).z = 30 / Real.sqrt 901 := by
    rw [hsn, Vector3.normalize, smul_z, hL]
    norm_num
    ring
  have hbig : (0.999 : ℝ) < 30 / Real.sqrt 901 := by
    rw [lt_div_iff₀ hs0]
    nlinarith
  have hrot : (create_robust_placement ⟨1, 0, 30⟩ ⟨0, 0, 0⟩).rot = qIdentity := by
    rw [create_robust_placement, if_pos, if_pos]
    · rw [hzc]; positivity
    · rw [hdot, abs_of_pos (by positivity)]
      exact hbig
  rw [hrot, qIdentity_apply]
  intro h
  have hx := congrArg Vector3.x h
  rw [Vector3.normalize, smul_x, hL] at hx
  simp only at hx
  have : (1 : ℝ) / Real.sqrt 901 * 1 > 0 := by positivity
  rw [← hx] at this
  norm_num at this

/-- C5, witness: a concrete normal `(3, 0, 4)` taking the shortest-arc
branch, where the rotation maps world Z exactly to the normalized normal. -/
theorem C5_witness :
    ¬ |(safeNormal ⟨3, 0, 4⟩).dot ⟨0, 0, 1⟩| > 0.999 ∧
      ((create_robust_placement ⟨3, 0, 4⟩ ⟨0, 0, 0⟩).rot =
          qShortestArc ⟨0, 0, 1⟩ (safeNormal ⟨3, 0, 4⟩) ∧
        (create_robust_placement ⟨3, 0, 4⟩ ⟨0, 0, 0⟩).rot.apply ⟨0, 0, 1⟩ =
          safeNormal ⟨3, 0, 4⟩) := by
  have hL : (⟨3, 0, 4⟩ : Vector3).Length = 5 :=
    Length_eq_of_sq (by norm_num) (by norm_num [normSq_def])
  have hgt : (⟨3, 0, 4⟩ : Vector3).Length > 1e-6 := by rw [hL]; norm_num
  have hsn : safeNormal ⟨3, 0, 4⟩ = (⟨3, 0, 4⟩ : Vector3).normalize := by
    rw [safeNormal, if_pos hgt]
  have hdot : (safeNormal ⟨3, 0, 4⟩).dot ⟨0, 0, 1⟩ = 4 / 5 := by
    rw [hsn, Vector3.normalize, smul_dot, hL, dot_def]
    norm_num
  have hno : ¬ |(safeNormal ⟨3, 0, 4⟩).dot ⟨0, 0, 1⟩| > 0.999 := by
    rw [hdot]
    rw [abs_of_pos (by norm_num)]
    norm_num
  exact ⟨hno, (C5_rotation_selection ⟨3, 0, 4⟩ ⟨0, 0, 0⟩).2.2.2.1 hno⟩

/-- Concrete two-edge plane derivation used for C6: two parallel horizontal
edges of length 2, two units apart, produce the raw cross-product normal
`(0, 0, 4)`. -/
lemma planeFromEdgePair_example :
    planeFromEdgePair ((⟨0, 0, 0⟩ : Vector3), (⟨2, 0, 0⟩ : Vector3))
      ((⟨0, 2, 0⟩ : Vector3), (⟨2, 2, 0⟩ : Vector3)) =
      some (⟨0, 0, 4⟩, ⟨0, 0, 0⟩) := by
  have h1 : ¬ is_close (⟨0, 2, 0⟩ : Vector3) ⟨0, 0, 0⟩ 1e-4 :=
    not_close_of_normSq (by norm_num) (by norm_num [normSq_def])
  have h2 : ¬ is_close (⟨0, 2, 0⟩ : Vector3) ⟨2, 0, 0⟩ 1e-4 :=
    not_close_of_normSq (by norm_num) (by norm_num [normSq_def])
  have hc : ((⟨2, 0, 0⟩ : Vector3) - ⟨0, 0, 0⟩).cross
      ((⟨0, 2, 0⟩ : Vector3) - ⟨0, 0, 0⟩) = ⟨0, 0, 4⟩ := by
    ext <;> norm_num
  have hL4 : (⟨0, 0, 4⟩ : Vector3).Length = 4 :=
    Length_eq_of_sq (by norm_num) (by norm_num [normSq_def])
  rw [planeFromEdgePair]
  simp only []
  rw [if_pos ⟨h1, h2⟩]
  simp only [hc]
  rw [if_neg (by rw [hL4]; norm_num)]

/-- C6, amended: every plane the two-edge branch produces carries the raw
(unnormalized) cross product `(v2 - v1) × (v3 - v1)` as its normal,
guaranteed only to have length at least `1e-6` — not unit length — with the
first edge's first endpoint as the plane point; the membership test divides
by nothing, so its effective tolerance scales with this length. -/
theorem C6_edge_pair_plane (e1 e2 : Edge) (n p : Vector3)
    (h : planeFromEdgePair e1 e2 = some (n, p)) :
    1e-6 ≤ n.Length ∧ p = e1.1 ∧
      (n = (e1.2 - e1.1).cross (e2.1 - e1.1) ∨
        n = (e1.2 - e1.1).cross (e2.2 - e1.1)) := by
  rw [planeFromEdgePair] at h
  simp only [] at h
  by_cases h1 : ¬ is_close e2.1 e1.1 1e-4 ∧ ¬ is_close e2.1 e1.2 1e-4
  · rw [if_pos h1] at h
    simp only [] at h
    by_cases hn : ((e1.2 - e1.1).cross (e2.1 - e1.1)).Length < 1e-6
    · rw [if_pos hn] at h
      exact absurd h (by simp)
    · rw [if_neg hn] at h
      rw [Option.some.injEq, Prod.mk.injEq] at h
      obtain ⟨hveq, hpeq⟩ := h
      exact ⟨hveq ▸ not_lt.mp hn, hpeq.symm, Or.inl hveq.symm⟩
  · rw [if_neg h1] at h
    by_cases h2 : ¬ is_close e2.2 e1.1 1e-4 ∧ ¬ is_close e2.2 e1.2 1e-4
    · rw [if_pos h2] at h
      simp only [] at h
      by_cases hn : ((e1.2 - e1.1).cross (e2.2 - e1.1)).Length < 1e-6
      · rw [if_pos hn] at h
        exact absurd h (by simp)
      · rw [if_neg hn] at h
        rw [Option.some.injEq, Prod.mk.injEq] at h
        obtain ⟨hveq, hpeq⟩ := h
        exact ⟨hveq ▸ not_lt.mp hn, hpeq.symm, Or.inr hveq.symm⟩
    · rw [if_neg h2] at h
      exact absurd h (by simp)

/-- C6, counterexample: the two-edge branch yields the normal `(0,0,4)` of
length 4, refuting the unit-length invariant. -/
theorem C6_cex_unnormalized_normal :
    planeFromEdgePair ((⟨0, 0, 0⟩ : Vector3), (⟨2, 0, 0⟩ : Vector3))
        ((⟨0, 2, 0⟩ : Vector3), (⟨2, 2, 0⟩ : Vector3)) =
        some (⟨0, 0, 4⟩, ⟨0, 0, 0⟩) ∧
      (⟨0, 0, 4⟩ : Vector3).Length = 4 ∧ (4 : ℝ) ≠ 1 :=
  ⟨planeFromEdgePair_example,
    Length_eq_of_sq (by norm_num) (by norm_num [normSq_def]), by norm_num⟩

/-- C6, witness: the amended theorem applied to the concrete two-edge
configuration. -/
theorem C6_witness :
    planeFromEdgePair ((⟨0, 0, 0⟩ : Vector3), (⟨2, 0, 0⟩ : Vector3))
        ((⟨0, 2, 0⟩ : Vector3), (⟨2, 2, 0⟩ : Vector3)) =
        some (⟨0, 0, 4⟩, ⟨0, 0, 0⟩) ∧
      (1e-6 ≤ (⟨0, 0, 4⟩ : Vector3).Length ∧
        (⟨0, 0, 0⟩ : Vector3) =
          (((⟨0, 0, 0⟩ : Vector3), (⟨2, 0, 0⟩ : Vector3)) : Edge).1 ∧
        ((⟨0, 0, 4⟩ : Vector3) =
            ((((⟨0, 0, 0⟩ : Vector3), (⟨2, 0, 0⟩ : Vector3)) : Edge).2 -
                (((⟨0, 0, 0⟩ : Vector3), (⟨2, 0, 0⟩ : Vector3)) : Edge).1).cross
              ((((⟨0, 2, 0⟩ : Vector3), (⟨2, 2, 0⟩ : Vector3)) : Edge).1 -
                (((⟨0, 0, 0⟩ : Vector3), (⟨2, 0, 0⟩ : Vector3)) : Edge).1) ∨
          (⟨0, 0, 4⟩ : Vector3) =
            ((((⟨0, 0, 0⟩ : Vector3), (⟨2, 0, 0⟩ : Vector3)) : Edge).2 -
                (((⟨0, 0, 0⟩ : Vector3), (⟨2, 0, 0⟩ : Vector3)) : Edge).1).cross
              ((((⟨0, 2, 0⟩ : Vector3), (⟨2, 2, 0⟩ : Vector3)) : Edge).2 -
                (((⟨0, 0, 0⟩ : Vector3), (⟨2, 0, 0⟩ : Vector3)) : Edge).1))) :=
  ⟨planeFromEdgePair_example,
    C6_edge_pair_plane _ _ _ _ planeFromEdgePair_example⟩

/-- C7: the coplanarity classifier is an order-preserving pure filter —
empty input yields empty output, the result is a sublist (order preserved)
of the input, and an edge belongs to the result exactly when it belongs to
the input and both its endpoints pass the plane-membership test at the given
tolerance. -/
theorem C7_classifier (pp pn : Vector3) (tol : ℝ) (es : List Edge) :
    classify pp pn tol [] = [] ∧
    (classify pp pn tol es).Sublist es ∧
    ∀ e : Edge, e ∈ classify pp pn tol es ↔
      e ∈ es ∧ coplanarPt pp pn e.1 tol ∧ coplanarPt pp pn e.2 tol := by
  refine ⟨rfl, classify_sublist pp pn tol es, fun e => ?_⟩
  rw [classify_mem, is_coplanar]

/-- C2, amended: the transaction is committed exactly when a document
exists, the selection contains at least one edge, and the user confirms the
placement dialog — independently of how many segments the per-edge loop
actually produced.  There is no "no usable edges" abort path. -/
theorem C2_commit_condition (docExists : Bool) (edges : List Edge)
    (mc : Vector3) (userOk : Bool) (accept : ℕ × ℕ → ℕ × ℕ → Bool) :
    (create_sketch_from_selection docExists edges mc userOk accept).committed =
      (docExists && !edges.isEmpty && userOk) := by
  cases docExists <;> cases userOk <;>
    by_cases he : edges.isEmpty = true <;>
      simp [create_sketch_from_selection, he, emptyResult]

/-- Unfolding of a confirmed, non-empty run of `create_sketch_from_selection`
on the standalone path. -/
lemma create_sketch_run (edges : List Edge) (mc : Vector3)
    (accept : ℕ × ℕ → ℕ × ℕ → Bool) (hne : edges.isEmpty = false)
    (st : LoopState)
    (hst : st = edges.foldl
      (processEdge (Placement.invVec (create_robust_placement
        (calculate_robust_plane_normal_and_placement
          (dedup (edges.flatMap (fun e => [e.1, e.2]))) mc).1
        (calculate_robust_plane_normal_and_placement
          (dedup (edges.flatMap (fun e => [e.1, e.2]))) mc).2)))
      ⟨0, 0, [], [], []⟩) :
    create_sketch_from_selection true edges mc true accept =
      ⟨true, true, st.segments, st.block_constraints, st.vertex_map,
        coincidentAttempts st.vertex_map,
        ((coincidentAttempts st.vertex_map).filter
          (fun pr => accept pr.1 pr.2)).length⟩ := by
  subst hst
  rw [create_sketch_from_selection, if_neg (not_not_intro rfl),
    if_neg (show ¬(edges.isEmpty = true) by rw [hne]; simp)]
  rfl

/-- A cancelled (userOk = false) run with a nonempty selection aborts with
no geometry. -/
lemma create_sketch_cancel (edges : List Edge) (mc : Vector3)
    (accept : ℕ × ℕ → ℕ × ℕ → Bool) (hne : edges.isEmpty = false) :
    create_sketch_from_selection true edges mc false accept =
      emptyResult true false := by
  rw [create_sketch_from_selection, if_neg (not_not_intro rfl),
    if_neg (show ¬(edges.isEmpty = true) by rw [hne]; simp)]
  rfl

/-- C2, counterexample: a selection holding a single degenerate edge (both
endpoints equal).  The per-edge loop produces zero segments, yet the run is
committed — refuting the claim that a zero-segment run aborts with a
"no usable edges" failure. -/
theorem C2_cex_all_degenerate_commits :
    (create_sketch_from_selection true
        [((⟨0, 0, 0⟩ : Vector3), (⟨0, 0, 0⟩ : Vector3))]
        ⟨0, 0, 0⟩ true (fun _ _ => true)).committed = true ∧
      (create_sketch_from_selection true
        [((⟨0, 0, 0⟩ : Vector3), (⟨0, 0, 0⟩ : Vector3))]
        ⟨0, 0, 0⟩ true (fun _ _ => true)).segments = [] := by
  have hdeg : is_close (⟨0, 0, 0⟩ : Vector3) ⟨0, 0, 0⟩ 0.001 :=
    is_close_self (by norm_num)
  have hstep : ∀ (inv : Vector3 → Vector3) (st : LoopState),
      processEdge inv st ((⟨0, 0, 0⟩ : Vector3), (⟨0, 0, 0⟩ : Vector3)) = st :=
    fun inv st =>
      @processEdge_degenerate ((⟨0, 0, 0⟩ : Vector3), (⟨0, 0, 0⟩ : Vector3))
        hdeg inv st
  have hst : (⟨0, 0, [], [], []⟩ : LoopState) =
      [((⟨0, 0, 0⟩ : Vector3), (⟨0, 0, 0⟩ : Vector3))].foldl
        (processEdge (Placement.invVec (create_robust_placement
          (calculate_robust_plane_normal_and_placement
            (dedup ([((⟨0, 0, 0⟩ : Vector3), (⟨0, 0, 0⟩ : Vector3))].flatMap
              (fun e => [e.1, e.2]))) ⟨0, 0, 0⟩).1
          (calculate_robust_plane_normal_and_placement
            (dedup ([((⟨0, 0, 0⟩ : Vector3), (⟨0, 0, 0⟩ : Vector3))].flatMap
              (fun e => [e.1, e.2]))) ⟨0, 0, 0⟩).2)))
        ⟨0, 0, [], [], []⟩ := by
    rw [List.foldl_cons, List.foldl_nil, hstep]
  have hrun := create_sketch_run
    [((⟨0, 0, 0⟩ : Vector3), (⟨0, 0, 0⟩ : Vector3))] ⟨0, 0, 0⟩
    (fun _ _ => true) (by simp) _ hst
  rw [hrun]
  constructor
  · rfl
  · rfl

lemma starPairs_eq_nil {refs : List (ℕ × ℕ)} (h : refs.length ≤ 1) :
    starPairs refs = [] := by
  match refs with
  | [] => rfl
  | [r] => rfl
  | a :: b :: t => simp at h

/-- C8: coincidence synthesis is star-shaped — each vertex group with `N`
members yields exactly `N - 1` requests, each pairing the group's first
reference with one later reference; size-1 groups yield none; and neither
the commit decision nor the emitted request list depends on which individual
coincidence requests the solver accepts (failures are non-fatal and do not
stop emission). -/
theorem C8_star_coincidence (d : Bool) (edges : List Edge) (mc : Vector3)
    (ok : Bool) (accept accept' : ℕ × ℕ → ℕ × ℕ → Bool) :
    (∀ g ∈ (create_sketch_from_selection d edges mc ok accept).vertex_map,
      (starPairs g.2).length = g.2.length - 1 ∧
      (∀ pr ∈ starPairs g.2, ∃ rest, g.2 = pr.1 :: rest ∧ pr.2 ∈ rest) ∧
      (g.2.length = 1 → starPairs g.2 = [])) ∧
    (create_sketch_from_selection d edges mc ok accept).coincident_attempts =
      coincidentAttempts
        (create_sketch_from_selection d edges mc ok accept).vertex_map ∧
    (create_sketch_from_selection d edges mc ok accept).committed =
      (create_sketch_from_selection d edges mc ok accept').committed ∧
    (create_sketch_from_selection d edges mc ok accept).coincident_attempts =
      (create_sketch_from_selection d edges mc ok accept').coincident_attempts := by
  have hstar : ∀ g : Vector3 × List (ℕ × ℕ),
      (starPairs g.2).length = g.2.length - 1 ∧
      (∀ pr ∈ starPairs g.2, ∃ rest, g.2 = pr.1 :: rest ∧ pr.2 ∈ rest) ∧
      (g.2.length = 1 → starPairs g.2 = []) := by
    intro g
    refine ⟨starPairs_length g.2, fun pr hpr => ?_, fun h1 => starPairs_eq_nil h1.le⟩
    obtain ⟨first, rest, hrefs, hp1, hp2⟩ := starPairs_mem hpr
    exact ⟨rest, by rw [hrefs, hp1], hp2⟩
  refine ⟨fun g _ => hstar g, ?_⟩
  cases d with
  | false => exact ⟨rfl, rfl, rfl⟩
  | true =>
      by_cases he : edges.isEmpty = true
      · have habort : ∀ a : ℕ × ℕ → ℕ × ℕ → Bool,
            create_sketch_from_selection true edges mc ok a =
              emptyResult true false := fun a => by
          rw [create_sketch_from_selection, if_neg (not_not_intro rfl),
            if_pos he]
        rw [habort accept, habort accept']
        exact ⟨rfl, rfl, rfl⟩
      · have hef : edges.isEmpty = false := by
          revert he; cases edges.isEmpty <;> simp
        cases ok with
        | false =>
            rw [create_sketch_cancel edges mc accept hef,
              create_sketch_cancel edges mc accept' hef]
            exact ⟨rfl, rfl, rfl⟩
        | true =>
            rw [create_sketch_run edges mc accept hef _ rfl,
              create_sketch_run edges mc accept' hef _ rfl]
            exact ⟨rfl, rfl, rfl⟩

lemma registerPoint_nil (tol : ℝ) (pt : Vector3) (r : ℕ × ℕ) :
    registerPoint tol pt r [] = [(pt, [r])] := rfl

/-- The vertex map (and the other placement-independent loop components) do
not depend on the global-to-local transform. -/
lemma foldl_vertex_map_eq (inv : Vector3 → Vector3) (es : List Edge) :
    (es.foldl (processEdge inv) ⟨0, 0, [], [], []⟩).vertex_map =
      (es.foldl (processEdge (fun v => v)) ⟨0, 0, [], [], []⟩).vertex_map :=
  (foldl_processEdge_inv_indep inv (fun v => v) es _ _ rfl rfl rfl rfl).2.2.1

/-- Concrete two-edge run sharing the endpoint `(1,0,0)`: the resulting
vertex map has three groups, the shared one holding two references. -/
lemma example_vmap :
    (create_sketch_from_selection true
      [((⟨0, 0, 0⟩ : Vector3), (⟨1, 0, 0⟩ : Vector3)),
        ((⟨1, 0, 0⟩ : Vector3), (⟨1, 1, 0⟩ : Vector3))]
      ⟨0, 0, 0⟩ true (fun _ _ => false)).vertex_map =
    [((⟨0, 0, 0⟩ : Vector3), [(0, 1)]),
      ((⟨1, 0, 0⟩ : Vector3), [(0, 2), (1, 1)]),
      ((⟨1, 1, 0⟩ : Vector3), [(1, 2)])] := by
  have hA : ¬ is_close (⟨1, 0, 0⟩ : Vector3) ⟨0, 0, 0⟩ 0.001 :=
    not_close_of_normSq (by norm_num) (by norm_num [normSq_def])
  have hC : ¬ is_close (⟨1, 1, 0⟩ : Vector3) ⟨0, 0, 0⟩ 0.001 :=
    not_close_of_normSq (by norm_num) (by norm_num [normSq_def])
  have hD : ¬ is_close (⟨1, 1, 0⟩ : Vector3) ⟨1, 0, 0⟩ 0.001 :=
    not_close_of_normSq (by norm_num) (by norm_num [normSq_def])
  have hne1 : ¬ is_close (⟨0, 0, 0⟩ : Vector3) ⟨1, 0, 0⟩ 0.001 :=
    not_close_of_normSq (by norm_num) (by norm_num [normSq_def])
  have hne2 : ¬ is_close (⟨1, 0, 0⟩ : Vector3) ⟨1, 1, 0⟩ 0.001 :=
    not_close_of_normSq (by norm_num) (by norm_num [normSq_def])
  have r2 : registerPoint 0.001 ⟨1, 0, 0⟩ (0, 2)
      [((⟨0, 0, 0⟩ : Vector3), [(0, 1)])] =
      [((⟨0, 0, 0⟩ : Vector3), [(0, 1)]), ((⟨1, 0, 0⟩ : Vector3), [(0, 2)])] := by
    have := registerPoint_new 0.001 ⟨1, 0, 0⟩ (0, 2)
      [((⟨0, 0, 0⟩ : Vector3), [(0, 1)])]
      (fun g hg => by rcases List.mem_singleton.mp hg with rfl; exact hA)
    simpa using this
  have r4 : registerPoint 0.001 ⟨1, 0, 0⟩ (1, 1)
      [((⟨0, 0, 0⟩ : Vector3), [(0, 1)]), ((⟨1, 0, 0⟩ : Vector3), [(0, 2)])] =
      [((⟨0, 0, 0⟩ : Vector3), [(0, 1)]),
        ((⟨1, 0, 0⟩ : Vector3), [(0, 2), (1, 1)])] := by
    have := registerPoint_found 0.001 ⟨1, 0, 0⟩ (1, 1) ⟨1, 0, 0⟩ [(0, 2)]
      [((⟨0, 0, 0⟩ : Vector3), [(0, 1)])] []
      (fun g hg => by rcases List.mem_singleton.mp hg with rfl; exact hA)
      (is_close_self (by norm_num))
    simpa using this
  have r5 : registerPoint 0.001 ⟨1, 1, 0⟩ (1, 2)
      [((⟨0, 0, 0⟩ : Vector3), [(0, 1)]),
        ((⟨1, 0, 0⟩ : Vector3), [(0, 2), (1, 1)])] =
      [((⟨0, 0, 0⟩ : Vector3), [(0, 1)]),
        ((⟨1, 0, 0⟩ : Vector3), [(0, 2), (1, 1)]),
        ((⟨1, 1, 0⟩ : Vector3), [(1, 2)])] := by
    have := registerPoint_new 0.001 ⟨1, 1, 0⟩ (1, 2)
      [((⟨0, 0, 0⟩ : Vector3), [(0, 1)]),
        ((⟨1, 0, 0⟩ : Vector3), [(0, 2), (1, 1)])]
      (fun g hg => by
        rcases List.mem_cons.mp hg with rfl | hg
        · exact hC
        · rcases List.mem_singleton.mp hg with rfl; exact hD)
    simpa using this
  have s1 : processEdge (fun v => v) ⟨0, 0, [], [], []⟩
      ((⟨0, 0, 0⟩ : Vector3), (⟨1, 0, 0⟩ : Vector3)) =
      ⟨1, 1, [(⟨0, 0, 0⟩, ⟨1, 0, 0⟩)], [0],
        [((⟨0, 0, 0⟩ : Vector3), [(0, 1)]),
          ((⟨1, 0, 0⟩ : Vector3), [(0, 2)])]⟩ := by
    simp only [processEdge, if_neg hne1, registerPoint_nil]
    rw [r2]
    rfl
  have s2 : processEdge (fun v => v)
      ⟨1, 1, [(⟨0, 0, 0⟩, ⟨1, 0, 0⟩)], [0],
        [((⟨0, 0, 0⟩ : Vector3), [(0, 1)]),
          ((⟨1, 0, 0⟩ : Vector3), [(0, 2)])]⟩
      ((⟨1, 0, 0⟩ : Vector3), (⟨1, 1, 0⟩ : Vector3)) =
      ⟨2, 2, [(⟨0, 0, 0⟩, ⟨1, 0, 0⟩), (⟨1, 0, 0⟩, ⟨1, 1, 0⟩)], [0, 1],
        [((⟨0, 0, 0⟩ : Vector3), [(0, 1)]),
          ((⟨1, 0, 0⟩ : Vector3), [(0, 2), (1, 1)]),
          ((⟨1, 1, 0⟩ : Vector3), [(1, 2)])]⟩ := by
    simp only [processEdge, if_neg hne2]
    rw [r4, r5]
    rfl
  have hfold : ([((⟨0, 0, 0⟩ : Vector3), (⟨1, 0, 0⟩ : Vector3)),
      ((⟨1, 0, 0⟩ : Vector3), (⟨1, 1, 0⟩ : Vector3))].foldl
        (processEdge (fun v => v)) ⟨0, 0, [], [], []⟩) =
      ⟨2, 2, [(⟨0, 0, 0⟩, ⟨1, 0, 0⟩), (⟨1, 0, 0⟩, ⟨1, 1, 0⟩)], [0, 1],
        [((⟨0, 0, 0⟩ : Vector3), [(0, 1)]),
          ((⟨1, 0, 0⟩ : Vector3), [(0, 2), (1, 1)]),
          ((⟨1, 1, 0⟩ : Vector3), [(1, 2)])]⟩ := by
    rw [List.foldl_cons, s1, List.foldl_cons, s2, List.foldl_nil]
  have hrun := create_sketch_run
    [((⟨0, 0, 0⟩ : Vector3), (⟨1, 0, 0⟩ : Vector3)),
      ((⟨1, 0, 0⟩ : Vector3), (⟨1, 1, 0⟩ : Vector3))] ⟨0, 0, 0⟩
    (fun _ _ => false) (by simp) _ rfl
  rw [hrun]
  show (_ : List (Vector3 × List (ℕ × ℕ))) = _
  rw [foldl_vertex_map_eq, hfold]

/-- C8, witness: in the concrete two-edge run above, the shared-endpoint
group has two members and its star facts follow from the theorem. -/
theorem C8_witness :
    ((⟨1, 0, 0⟩ : Vector3), [((0 : ℕ), (2 : ℕ)), (1, 1)]) ∈
      (create_sketch_from_selection true
        [((⟨0, 0, 0⟩ : Vector3), (⟨1, 0, 0⟩ : Vector3)),
          ((⟨1, 0, 0⟩ : Vector3), (⟨1, 1, 0⟩ : Vector3))]
        ⟨0, 0, 0⟩ true (fun _ _ => false)).vertex_map ∧
    ((starPairs [((0 : ℕ), (2 : ℕ)), (1, 1)]).length =
        ([((0 : ℕ), (2 : ℕ)), (1, 1)] : List (ℕ × ℕ)).length - 1 ∧
      (∀ pr ∈ starPairs [((0 : ℕ), (2 : ℕ)), (1, 1)],
        ∃ rest, ([((0 : ℕ), (2 : ℕ)), (1, 1)] : List (ℕ × ℕ)) =
          pr.1 :: rest ∧ pr.2 ∈ rest) ∧
      (([((0 : ℕ), (2 : ℕ)), (1, 1)] : List (ℕ × ℕ)).length = 1 →
        starPairs [((0 : ℕ), (2 : ℕ)), (1, 1)] = [])) := by
  have hmem : ((⟨1, 0, 0⟩ : Vector3), [((0 : ℕ), (2 : ℕ)), (1, 1)]) ∈
      (create_sketch_from_selection true
        [((⟨0, 0, 0⟩ : Vector3), (⟨1, 0, 0⟩ : Vector3)),
          ((⟨1, 0, 0⟩ : Vector3), (⟨1, 1, 0⟩ : Vector3))]
        ⟨0, 0, 0⟩ true (fun _ _ => false)).vertex_map := by
    rw [example_vmap]
    simp
  exact ⟨hmem,
    (C8_star_coincidence true
      [((⟨0, 0, 0⟩ : Vector3), (⟨1, 0, 0⟩ : Vector3)),
        ((⟨1, 0, 0⟩ : Vector3), (⟨1, 1, 0⟩ : Vector3))]
      ⟨0, 0, 0⟩ true (fun _ _ => false) (fun _ _ => false)).1 _ hmem⟩

/-- C9: endpoint registration appends the reference to the first existing
vertex-map key within the merge tolerance (a tolerance-based linear scan in
insertion order, never exact key equality), otherwise founds a new group
keyed by the point itself; consequently, in the emission loop every
reference stored in a group denotes an edge endpoint lying within the merge
tolerance of that group's representative key. -/
theorem C9_vertex_merge :
    (∀ (pt : Vector3) (r : ℕ × ℕ) (vm : List (Vector3 × List (ℕ × ℕ))),
      (∀ g ∈ vm, ¬ is_close pt g.1 0.001) →
      registerPoint 0.001 pt r vm = vm ++ [(pt, [r])]) ∧
    (∀ (pt : Vector3) (r : ℕ × ℕ) (k : Vector3) (refs : List (ℕ × ℕ))
      (vm1 vm2 : List (Vector3 × List (ℕ × ℕ))),
      (∀ g ∈ vm1, ¬ is_close pt g.1 0.001) → is_close pt k 0.001 →
      registerPoint 0.001 pt r (vm1 ++ (k, refs) :: vm2) =
        vm1 ++ (k, refs ++ [r]) :: vm2) ∧
    (∀ (inv : Vector3 → Vector3) (edges : List Edge),
      ∀ g ∈ (edges.foldl (processEdge inv) ⟨0, 0, [], [], []⟩).vertex_map,
        ∀ r ∈ g.2, ∃ q,
          (∃ e ∈ edges, (r.2 = 1 ∧ q = e.1) ∨ (r.2 = 2 ∧ q = e.2)) ∧
          is_close q g.1 0.001) := by
  refine ⟨fun pt r vm h => registerPoint_new 0.001 pt r vm h,
    fun pt r k refs vm1 vm2 h hk =>
      registerPoint_found 0.001 pt r k refs vm1 vm2 h hk,
    fun inv edges => ?_⟩
  refine processEdge_fold_vertex_invariant inv edges ⟨0, 0, [], [], []⟩ ?_ ?_
  · intro e he _
    exact ⟨fun n => ⟨e, he, Or.inl ⟨rfl, rfl⟩⟩,
      fun n => ⟨e, he, Or.inr ⟨rfl, rfl⟩⟩⟩
  · intro g hg
    exact absurd hg (List.not_mem_nil g)

/-- C9, witness: registering a point into an empty vertex map founds a new
group keyed by the point itself. -/
theorem C9_witness :
    (∀ g ∈ ([] : List (Vector3 × List (ℕ × ℕ))),
      ¬ is_close ⟨0, 0, 0⟩ g.1 0.001) ∧
    registerPoint 0.001 ⟨0, 0, 0⟩ (0, 1) [] =
      [] ++ [((⟨0, 0, 0⟩ : Vector3), [(0, 1)])] := by
  have h : ∀ g ∈ ([] : List (Vector3 × List (ℕ × ℕ))),
      ¬ is_close (⟨0, 0, 0⟩ : Vector3) g.1 0.001 :=
    fun g hg => absurd hg (List.not_mem_nil g)
  exact ⟨h, C9_vertex_merge.1 ⟨0, 0, 0⟩ (0, 1) [] h⟩

lemma foldl_blocks_eq2 (inv inv' : Vector3 → Vector3) (es : List Edge) :
    (es.foldl (processEdge inv) ⟨0, 0, [], [], []⟩).block_constraints =
      (es.foldl (processEdge inv') ⟨0, 0, [], [], []⟩).block_constraints :=
  (foldl_processEdge_inv_indep inv inv' es _ _ rfl rfl rfl rfl).2.2.2

lemma foldl_vm_eq2 (inv inv' : Vector3 → Vector3) (es : List Edge) :
    (es.foldl (processEdge inv) ⟨0, 0, [], [], []⟩).vertex_map =
      (es.foldl (processEdge inv') ⟨0, 0, [], [], []⟩).vertex_map :=
  (foldl_processEdge_inv_indep inv inv' es _ _ rfl rfl rfl rfl).2.2.1

/-- C10, amended: a degenerate edge (endpoints within `1e-3`) is skipped by
the emission loop entirely — the loop state is exactly as if the edge were
absent, given the same resolved transform — and a full run's block
constraints, vertex groups, coincidence requests and accepted-request count
are identical to a run without that edge.  (The skipped edge's endpoints do
still enter the plane-estimation point set, so the placement, and hence the
segments' local coordinates, may differ between the two runs.) -/
theorem C10_degenerate_skip {e : Edge} (hdeg : is_close e.1 e.2 0.001) :
    (∀ (inv : Vector3 → Vector3) (pre post : List Edge) (st : LoopState),
      (pre ++ e :: post).foldl (processEdge inv) st =
        (pre ++ post).foldl (processEdge inv) st) ∧
    (∀ (d : Bool) (pre post : List Edge) (mc : Vector3) (ok : Bool)
      (accept : ℕ × ℕ → ℕ × ℕ → Bool),
      (create_sketch_from_selection d (pre ++ e :: post) mc ok
          accept).block_constraints =
        (create_sketch_from_selection d (pre ++ post) mc ok
          accept).block_constraints ∧
      (create_sketch_from_selection d (pre ++ e :: post) mc ok
          accept).vertex_map =
        (create_sketch_from_selection d (pre ++ post) mc ok
          accept).vertex_map ∧
      (create_sketch_from_selection d (pre ++ e :: post) mc ok
          accept).coincident_attempts =
        (create_sketch_from_selection d (pre ++ post) mc ok
          accept).coincident_attempts ∧
      (create_sketch_from_selection d (pre ++ e :: post) mc ok
          accept).coincident_added =
        (create_sketch_from_selection d (pre ++ post) mc ok
          accept).coincident_added) := by
  have hskip : ∀ (inv : Vector3 → Vector3) (pre post : List Edge)
      (st : LoopState),
      (pre ++ e :: post).foldl (processEdge inv) st =
        (pre ++ post).foldl (processEdge inv) st :=
    fun inv pre post st => foldl_skip_degenerate hdeg inv pre post st
  refine ⟨hskip, ?_⟩
  intro d pre post mc ok accept
  cases d with
  | false => exact ⟨rfl, rfl, rfl, rfl⟩
  | true =>
      have hne : (pre ++ e :: post).isEmpty = false := by simp
      by_cases hpp : (pre ++ post).isEmpty = true
      · have hppnil : pre ++ post = [] := by
          simpa [List.isEmpty_iff] using hpp
        cases ok with
        | false =>
            rw [create_sketch_cancel _ mc accept hne,
              create_sketch_from_selection, if_neg (not_not_intro rfl),
              if_pos hpp]
            exact ⟨rfl, rfl, rfl, rfl⟩
        | true =>
            rw [create_sketch_run _ mc accept hne _ rfl,
              create_sketch_from_selection, if_neg (not_not_intro rfl),
              if_pos hpp, hskip, hppnil, List.foldl_nil]
            exact ⟨rfl, rfl, rfl, rfl⟩
      · have hppf : (pre ++ post).isEmpty = false := by
          revert hpp; cases (pre ++ post).isEmpty <;> simp
        cases ok with
        | false =>
            rw [create_sketch_cancel _ mc accept hne,
              create_sketch_cancel _ mc accept hppf]
            exact ⟨rfl, rfl, rfl, rfl⟩
        | true =>
            rw [create_sketch_run _ mc accept hne _ rfl,
              create_sketch_run _ mc accept hppf _ rfl, hskip]
            refine ⟨foldl_blocks_eq2 _ _ _, foldl_vm_eq2 _ _ _,
              congrArg coincidentAttempts (foldl_vm_eq2 _ _ _),
              congrArg
                (fun vm => ((coincidentAttempts vm).filter
                  (fun pr => accept pr.1 pr.2)).length)
                (foldl_vm_eq2 _ _ _)⟩

/-- C10, witness: a concrete degenerate edge, with the amended theorem's
guarantees instantiated. -/
theorem C10_witness :
    is_close (((⟨1, 2, 3⟩ : Vector3), (⟨1, 2, 3⟩ : Vector3)) : Edge).1
        (((⟨1, 2, 3⟩ : Vector3), (⟨1, 2, 3⟩ : Vector3)) : Edge).2 0.001 ∧
    ((∀ (inv : Vector3 → Vector3) (pre post : List Edge) (st : LoopState),
      (pre ++ ((⟨1, 2, 3⟩ : Vector3), (⟨1, 2, 3⟩ : Vector3)) :: post).foldl
          (processEdge inv) st =
        (pre ++ post).foldl (processEdge inv) st) ∧
    (∀ (d : Bool) (pre post : List Edge) (mc : Vector3) (ok : Bool)
      (accept : ℕ × ℕ → ℕ × ℕ → Bool),
      (create_sketch_from_selection d
          (pre ++ ((⟨1, 2, 3⟩ : Vector3), (⟨1, 2, 3⟩ : Vector3)) :: post)
          mc ok accept).block_constraints =
        (create_sketch_from_selection d (pre ++ post) mc ok
          accept).block_constraints ∧
      (create_sketch_from_selection d
          (pre ++ ((⟨1, 2, 3⟩ : Vector3), (⟨1, 2, 3⟩ : Vector3)) :: post)
          mc ok accept).vertex_map =
        (create_sketch_from_selection d (pre ++ post) mc ok
          accept).vertex_map ∧
      (create_sketch_from_selection d
          (pre ++ ((⟨1, 2, 3⟩ : Vector3), (⟨1, 2, 3⟩ : Vector3)) :: post)
          mc ok accept).coincident_attempts =
        (create_sketch_from_selection d (pre ++ post) mc ok
          accept).coincident_attempts ∧
      (create_sketch_from_selection d
          (pre ++ ((⟨1, 2, 3⟩ : Vector3), (⟨1, 2, 3⟩ : Vector3)) :: post)
          mc ok accept).coincident_added =
        (create_sketch_from_selection d (pre ++ post) mc ok
          accept).coincident_added)) := by
  have hdeg : is_close (((⟨1, 2, 3⟩ : Vector3), (⟨1, 2, 3⟩ : Vector3)) :
      Edge).1 (((⟨1, 2, 3⟩ : Vector3), (⟨1, 2, 3⟩ : Vector3)) : Edge).2
      0.001 := is_close_self (by norm_num)
  exact ⟨hdeg,
    @C10_degenerate_skip ((⟨1, 2, 3⟩ : Vector3), (⟨1, 2, 3⟩ : Vector3)) hdeg⟩

/-- A normal of exactly `(0,0,1)` selects the identity rotation. -/
lemma create_robust_placement_z (center : Vector3) :
    create_robust_placement ⟨0, 0, 1⟩ center = ⟨center, qIdentity⟩ := by
  have hl : (⟨0, 0, 1⟩ : Vector3).Length > 1e-6 := by
    rw [zAxis_length]; norm_num
  have hsn : safeNormal ⟨0, 0, 1⟩ = ⟨0, 0, 1⟩ := by
    rw [safeNormal, if_pos hl, zAxis_normalize]
  have c1 : |(⟨0, 0, 1⟩ : Vector3).dot ⟨0, 0, 1⟩| > 0.999 := by
    rw [dot_def]; norm_num
  have c2 : (⟨0, 0, 1⟩ : Vector3).z > 0 := by norm_num
  show (⟨center,
      if |(safeNormal ⟨0, 0, 1⟩).dot ⟨0, 0, 1⟩| > 0.999 then
        (if (safeNormal ⟨0, 0, 1⟩).z > 0 then qIdentity else qRotX180)
      else qShortestArc ⟨0, 0, 1⟩ (safeNormal ⟨0, 0, 1⟩)⟩ : Placement) =
    ⟨center, qIdentity⟩
  rw [hsn, if_pos c1, if_pos c2]

/-- The inverse of a placement with identity rotation is translation by the
negated base. -/
lemma invVec_identity (m v : Vector3) :
    Placement.invVec ⟨m, qIdentity⟩ v = v - m := by
  show qIdentity.conj.apply (v - m) = v - m
  rw [qIdentity_conj, qIdentity_apply]

lemma dedupStep_nil (p : Vector3) : dedupStep [] p = [p] := by
  rw [dedupStep, if_pos (fun q hq => absurd hq (List.not_mem_nil q))]
  rfl

/-- Deduplication of the vertex multiset of the degenerate-plus-regular edge
pair used in the C10 counterexample. -/
lemma dedup_cex_A :
    dedup [⟨5, 7, 0⟩, ⟨5, 7, 0⟩, ⟨0, 0, 0⟩, ⟨1, 0, 0⟩] =
      [(⟨5, 7, 0⟩ : Vector3), ⟨0, 0, 0⟩, ⟨1, 0, 0⟩] := by
  have d1 : dedupStep [(⟨5, 7, 0⟩ : Vector3)] ⟨5, 7, 0⟩ =
      [(⟨5, 7, 0⟩ : Vector3)] := by
    rw [dedupStep, if_neg]
    intro hall
    exact absurd (is_close_self (by norm_num))
      (hall ⟨5, 7, 0⟩ (List.mem_singleton.mpr rfl))
  have d2 : dedupStep [(⟨5, 7, 0⟩ : Vector3)] ⟨0, 0, 0⟩ =
      [(⟨5, 7, 0⟩ : Vector3), ⟨0, 0, 0⟩] := by
    rw [dedupStep, if_pos]
    · rfl
    · intro q hq
      rcases List.mem_singleton.mp hq with rfl
      exact not_close_of_normSq (by norm_num) (by norm_num [normSq_def])
  have d3 : dedupStep [(⟨5, 7, 0⟩ : Vector3), ⟨0, 0, 0⟩] ⟨1, 0, 0⟩ =
      [(⟨5, 7, 0⟩ : Vector3), ⟨0, 0, 0⟩, ⟨1, 0, 0⟩] := by
    rw [dedupStep, if_pos]
    · rfl
    · intro q hq
      rcases List.mem_cons.mp hq with rfl | hq
      · exact not_close_of_normSq (by norm_num) (by norm_num [normSq_def])
      · rcases List.mem_singleton.mp hq with rfl
        exact not_close_of_normSq (by norm_num) (by norm_num [normSq_def])
  rw [dedup, List.foldl_cons, dedupStep_nil, List.foldl_cons, d1,
    List.foldl_cons, d2, List.foldl_cons, d3, List.foldl_nil]

lemma dedup_cex_B :
    dedup [⟨0, 0, 0⟩, ⟨1, 0, 0⟩] = [(⟨0, 0, 0⟩ : Vector3), ⟨1, 0, 0⟩] := by
  have d1 : dedupStep [(⟨0, 0, 0⟩ : Vector3)] ⟨1, 0, 0⟩ =
      [(⟨0, 0, 0⟩ : Vector3), ⟨1, 0, 0⟩] := by
    rw [dedupStep, if_pos]
    · rfl
    · intro q hq
      rcases List.mem_singleton.mp hq with rfl
      exact not_close_of_normSq (by norm_num) (by norm_num [normSq_def])
  rw [dedup, List.foldl_cons, dedupStep_nil, List.foldl_cons, d1,
    List.foldl_nil]

/-- Plane estimation for the three distinct points of the C10
counterexample: centroid `(2, 7/3, 0)`. -/
lemma calc_cex_A_snd :
    (calculate_robust_plane_normal_and_placement
      [(⟨5, 7, 0⟩ : Vector3), ⟨0, 0, 0⟩, ⟨1, 0, 0⟩] ⟨0, 0, 0⟩).2 =
      ⟨2, 7/3, 0⟩ := by
  rw [calculate_eq _ _ (by simp)]
  ext <;> norm_num [vsum, List.foldl]

/-- Plane estimation for the three distinct points of the C10
counterexample: normal `(0, 0, 1)` (cross product `(0,0,7)`, normalized; no
sign flip since the centroid-to-reference direction is horizontal). -/
lemma calc_cex_A_fst :
    (calculate_robust_plane_normal_and_placement
      [(⟨5, 7, 0⟩ : Vector3), ⟨0, 0, 0⟩, ⟨1, 0, 0⟩] ⟨0, 0, 0⟩).1 =
      ⟨0, 0, 1⟩ := by
  rw [calculate_eq _ _ (by simp)]
  have hm : (1 / ((([(⟨5, 7, 0⟩ : Vector3), ⟨0, 0, 0⟩, ⟨1, 0, 0⟩] :
      List Vector3).length : ℕ) : ℝ)) •
      vsum [(⟨5, 7, 0⟩ : Vector3), ⟨0, 0, 0⟩, ⟨1, 0, 0⟩] = ⟨2, 7/3, 0⟩ := by
    ext <;> norm_num [vsum, List.foldl]
  rw [hm]
  have hcr : tripleCross
      (List.map (fun v => v - (⟨2, 7/3, 0⟩ : Vector3))
        [(⟨5, 7, 0⟩ : Vector3), ⟨0, 0, 0⟩, ⟨1, 0, 0⟩]) (0, 1, 2) =
      ⟨0, 0, 7⟩ := by
    rw [tripleCross_map_sub _ _ (show ((0, 1, 2) : ℕ × ℕ × ℕ) ∈
      allTriples ([(⟨5, 7, 0⟩ : Vector3), ⟨0, 0, 0⟩, ⟨1, 0, 0⟩] :
        List Vector3).length by decide)]
    ext <;> norm_num [tripleCross, List.getD]
  have hL7 : (⟨0, 0, 7⟩ : Vector3).Length = 7 :=
    Length_eq_of_sq (by norm_num) (by norm_num [normSq_def])
  have hnrm : (⟨0, 0, 7⟩ : Vector3).normalize = ⟨0, 0, 1⟩ := by
    rw [Vector3.normalize, hL7]
    ext <;> norm_num
  have hbs : bestNormalSearch
      (List.map (fun v => v - (⟨2, 7/3, 0⟩ : Vector3))
        [(⟨5, 7, 0⟩ : Vector3), ⟨0, 0, 0⟩, ⟨1, 0, 0⟩]) =
      (7, some (⟨0, 0, 1⟩ : Vector3)) := by
    rw [bestNormalSearch]
    have hT : allTriples ((List.map (fun v => v - (⟨2, 7/3, 0⟩ : Vector3))
        [(⟨5, 7, 0⟩ : Vector3), ⟨0, 0, 0⟩, ⟨1, 0, 0⟩]).length) =
        [(0, 1, 2)] := by decide
    rw [hT, List.foldl_cons, List.foldl_nil]
    rw [bestStep]
    simp only [hcr, hL7]
    rw [if_pos (by norm_num)]
    rw [hnrm]
  rw [hbs]
  simp only [Option.getD_some]
  rw [if_neg]
  rintro ⟨-, hlt⟩
  rw [Vector3.normalize, smul_dot, dot_def] at hlt
  norm_num at hlt

lemma calc_cex_B_fst :
    (calculate_robust_plane_normal_and_placement
      [(⟨0, 0, 0⟩ : Vector3), ⟨1, 0, 0⟩] ⟨0, 0, 0⟩).1 = ⟨0, 0, 1⟩ := by
  rw [calculate_robust_plane_normal_and_placement, if_pos (by simp)]

lemma calc_cex_B_snd :
    (calculate_robust_plane_normal_and_placement
      [(⟨0, 0, 0⟩ : Vector3), ⟨1, 0, 0⟩] ⟨0, 0, 0⟩).2 = ⟨0, 0, 0⟩ := by
  rw [calculate_robust_plane_normal_and_placement, if_pos (by simp)]

/-- Segments of the C10 counterexample run that includes the far-away
degenerate edge: the plane centroid moves to `(2, 7/3, 0)`, so the one
emitted segment sits at shifted local coordinates. -/
lemma runA_segments :
    (create_sketch_from_selection true
      [((⟨5, 7, 0⟩ : Vector3), (⟨5, 7, 0⟩ : Vector3)),
        ((⟨0, 0, 0⟩ : Vector3), (⟨1, 0, 0⟩ : Vector3))]
      ⟨0, 0, 0⟩ true (fun _ _ => true)).segments =
    [((⟨-2, -7/3, 0⟩ : Vector3), (⟨-1, -7/3, 0⟩ : Vector3))] := by
  have hrun := create_sketch_run
    [((⟨5, 7, 0⟩ : Vector3), (⟨5, 7, 0⟩ : Vector3)),
      ((⟨0, 0, 0⟩ : Vector3), (⟨1, 0, 0⟩ : Vector3))] ⟨0, 0, 0⟩
    (fun _ _ => true) (by simp) _ rfl
  rw [hrun]
  show (_ : List (Vector3 × Vector3)) = _
  rw [show ([((⟨5, 7, 0⟩ : Vector3), (⟨5, 7, 0⟩ : Vector3)),
      ((⟨0, 0, 0⟩ : Vector3), (⟨1, 0, 0⟩ : Vector3))].flatMap
      (fun e => [e.1, e.2])) =
      [(⟨5, 7, 0⟩ : Vector3), ⟨5, 7, 0⟩, ⟨0, 0, 0⟩, ⟨1, 0, 0⟩] from rfl]
  rw [dedup_cex_A, calc_cex_A_fst, calc_cex_A_snd, create_robust_placement_z]
  have step0 : ∀ (inv : Vector3 → Vector3) (st : LoopState),
      processEdge inv st ((⟨5, 7, 0⟩ : Vector3), (⟨5, 7, 0⟩ : Vector3)) = st :=
    fun inv st =>
      @processEdge_degenerate ((⟨5, 7, 0⟩ : Vector3), (⟨5, 7, 0⟩ : Vector3))
        (is_close_self (by norm_num)) inv st
  have hne01 : ¬ is_close (⟨0, 0, 0⟩ : Vector3) ⟨1, 0, 0⟩ 0.001 :=
    not_close_of_normSq (by norm_num) (by norm_num [normSq_def])
  have rP : registerPoint 0.001 ⟨1, 0, 0⟩ (0, 2)
      [((⟨0, 0, 0⟩ : Vector3), [(0, 1)])] =
      [((⟨0, 0, 0⟩ : Vector3), [(0, 1)]), ((⟨1, 0, 0⟩ : Vector3), [(0, 2)])] := by
    have := registerPoint_new 0.001 ⟨1, 0, 0⟩ (0, 2)
      [((⟨0, 0, 0⟩ : Vector3), [(0, 1)])]
      (fun g hg => by
        rcases List.mem_singleton.mp hg with rfl
        exact not_close_of_normSq (by norm_num) (by norm_num [normSq_def]))
    simpa using this
  have s1 : processEdge
      (Placement.invVec ⟨⟨2, 7/3, 0⟩, qIdentity⟩) ⟨0, 0, [], [], []⟩
      ((⟨0, 0, 0⟩ : Vector3), (⟨1, 0, 0⟩ : Vector3)) =
      ⟨1, 1, [((⟨-2, -7/3, 0⟩ : Vector3), (⟨-1, -7/3, 0⟩ : Vector3))], [0],
        [((⟨0, 0, 0⟩ : Vector3), [(0, 1)]),
          ((⟨1, 0, 0⟩ : Vector3), [(0, 2)])]⟩ := by
    simp only [processEdge, if_neg hne01, registerPoint_nil, invVec_identity]
    rw [rP,
      show (⟨0, 0, 0⟩ : Vector3) - ⟨2, 7/3, 0⟩ = ⟨-2, -7/3, 0⟩ from by
        ext <;> norm_num,
      show (⟨1, 0, 0⟩ : Vector3) - ⟨2, 7/3, 0⟩ = ⟨-1, -7/3, 0⟩ from by
        ext <;> norm_num]
    rfl
  rw [List.foldl_cons, step0, List.foldl_cons, s1, List.foldl_nil]

/-- Segments of the C10 counterexample run without the degenerate edge: the
centroid fallback is the origin and the segment keeps its global
coordinates. -/
lemma runB_segments :
    (create_sketch_from_selection true
      [((⟨0, 0, 0⟩ : Vector3), (⟨1, 0, 0⟩ : Vector3))]
      ⟨0, 0, 0⟩ true (fun _ _ => true)).segments =
    [((⟨0, 0, 0⟩ : Vector3), (⟨1, 0, 0⟩ : Vector3))] := by
  have hrun := create_sketch_run
    [((⟨0, 0, 0⟩ : Vector3), (⟨1, 0, 0⟩ : Vector3))] ⟨0, 0, 0⟩
    (fun _ _ => true) (by simp) _ rfl
  rw [hrun]
  show (_ : List (Vector3 × Vector3)) = _
  rw [show ([((⟨0, 0, 0⟩ : Vector3), (⟨1, 0, 0⟩ : Vector3))].flatMap
      (fun e => [e.1, e.2])) = [(⟨0, 0, 0⟩ : Vector3), ⟨1, 0, 0⟩] from rfl]
  rw [dedup_cex_B, calc_cex_B_fst, calc_cex_B_snd, create_robust_placement_z]
  have hne01 : ¬ is_close (⟨0, 0, 0⟩ : Vector3) ⟨1, 0, 0⟩ 0.001 :=
    not_close_of_normSq (by norm_num) (by norm_num [normSq_def])
  have rP : registerPoint 0.001 ⟨1, 0, 0⟩ (0, 2)
      [((⟨0, 0, 0⟩ : Vector3), [(0, 1)])] =
      [((⟨0, 0, 0⟩ : Vector3), [(0, 1)]), ((⟨1, 0, 0⟩ : Vector3), [(0, 2)])] := by
    have := registerPoint_new 0.001 ⟨1, 0, 0⟩ (0, 2)
      [((⟨0, 0, 0⟩ : Vector3), [(0, 1)])]
      (fun g hg => by
        rcases List.mem_singleton.mp hg with rfl
        exact not_close_of_normSq (by norm_num) (by norm_num [normSq_def]))
    simpa using this
  have s1 : processEdge
      (Placement.invVec ⟨⟨0, 0, 0⟩, qIdentity⟩) ⟨0, 0, [], [], []⟩
      ((⟨0, 0, 0⟩ : Vector3), (⟨1, 0, 0⟩ : Vector3)) =
      ⟨1, 1, [((⟨0, 0, 0⟩ : Vector3), (⟨1, 0, 0⟩ : Vector3))], [0],
        [((⟨0, 0, 0⟩ : Vector3), [(0, 1)]),
          ((⟨1, 0, 0⟩ : Vector3), [(0, 2)])]⟩ := by
    simp only [processEdge, if_neg hne01, registerPoint_nil, invVec_identity]
    rw [rP,
      show (⟨0, 0, 0⟩ : Vector3) - ⟨0, 0, 0⟩ = ⟨0, 0, 0⟩ from by
        ext <;> norm_num,
      show (⟨1, 0, 0⟩ : Vector3) - ⟨0, 0, 0⟩ = ⟨1, 0, 0⟩ from by
        ext <;> norm_num]
    rfl
  rw [List.foldl_cons, s1, List.foldl_nil]

/-- C10, counterexample: a degenerate edge far from the surviving geometry
still shifts the estimated plane's centroid (its endpoints enter the
plane-estimation point set), so the full run's emitted segments differ from
the run with that edge absent — refuting "identical to a run with that edge
absent" for the segments. -/
theorem C10_cex_segments_differ :
    is_close (⟨5, 7, 0⟩ : Vector3) ⟨5, 7, 0⟩ 0.001 ∧
    (create_sketch_from_selection true
        [((⟨5, 7, 0⟩ : Vector3), (⟨5, 7, 0⟩ : Vector3)),
          ((⟨0, 0, 0⟩ : Vector3), (⟨1, 0, 0⟩ : Vector3))]
        ⟨0, 0, 0⟩ true (fun _ _ => true)).segments ≠
      (create_sketch_from_selection true
        [((⟨0, 0, 0⟩ : Vector3), (⟨1, 0, 0⟩ : Vector3))]
        ⟨0, 0, 0⟩ true (fun _ _ => true)).segments := by
  refine ⟨is_close_self (by norm_num), ?_⟩
  rw [runA_segments, runB_segments]
  intro h
  have hy := congrArg (fun l =>
    ((l.headD ((⟨9, 9, 9⟩ : Vector3), (⟨9, 9, 9⟩ : Vector3))).1).y) h
  simp only [List.headD_cons] at hy
  norm_num at hy

end

end CoplanarSketch
